import Mathlib

/-!
# A verification development for the `vcs` repository (the `kil` version-control tool)

Shallow embedding of `src/DiffBuilder.cc`, `src/Line.cc` and
`src/OperationAccumulator.cc`, followed by theorems about the embedded code.

Conventions of the embedding:
* `std::string` is `String`, `std::vector<T>` is `List T` (`push_back` appends at the end);
* `unsigned int` values are natural numbers, and the one arithmetic operation the code
  performs on them (`lastNum + 1`) is reduced modulo `2^32`;
* a null-pointer dereference and a failed `assert` end the run: the functions that can reach
  one return `Option`, with `none` for the aborted run.
-/

namespace Vcs

/-! ## Definitions: `Line.cc` and `DiffBuilder.cc` -/

/-- The number of values of the C++ type `unsigned int`. -/
def UINT_RANGE : Nat := 4294967296

/-- A `Line` (Line.cc): a line number and the text of the line. -/
structure Line where
  number : Nat
  line : String
deriving DecidableEq, Repr

/-- The kind of a diff element (`ElementType` of DiffBuilder.h). -/
inductive ElementType where
  | INSERTION
  | DELETION
deriving DecidableEq, Repr

/-- A `DiffElement`, as built by `DiffElement(type, lines)`: the constructor is not among
the sources, and the element is taken to hold the kind and the lines it is given. -/
structure DiffElement where
  type : ElementType
  lines : List Line
deriving DecidableEq, Repr

/-- A `FileDiff`, as built by `FileDiff(insertions, deletions)`: the two sequences of
elements it is given. -/
structure FileDiff where
  insertions : List DiffElement
  deletions : List DiffElement
deriving DecidableEq, Repr

/-- The number a new line must carry to extend the pending run: the expression
`type == INSERTION ? lastNum : lastNum + 1` of DiffBuilder.cc:10, in `unsigned int`. -/
def expectedNumber (type : ElementType) (lastNum : Nat) : Nat :=
  if type = ElementType.INSERTION then lastNum else (lastNum + 1) % UINT_RANGE

/-- The three variables `registerNewLine` updates through its reference parameters. -/
structure RunState where
  lines : List Line
  lastNum : Nat
  elements : List DiffElement
deriving DecidableEq, Repr

/-- The static function `registerNewLine` (DiffBuilder.cc:5-19). -/
def registerNewLine (st : RunState) (newLine : Line) (type : ElementType) : RunState :=
  let st1 : RunState :=
    if st.lines.length ≠ 0 ∧ newLine.number ≠ expectedNumber type st.lastNum then
      { st with elements := st.elements ++ [DiffElement.mk type st.lines], lines := [] }
    else st
  { st1 with lastNum := newLine.number, lines := st1.lines ++ [newLine] }

/-- The members of a `DiffBuilder`. -/
structure DiffBuilder where
  deletedLines : List Line
  insertedLines : List Line
  numberOfLastDeletedLine : Nat
  numberOfLastInsertedLine : Nat
  deletions : List DiffElement
  insertions : List DiffElement
deriving DecidableEq, Repr

/-- The deletion half of a builder, as `registerDeletedLine` passes it on. -/
def DiffBuilder.delState (b : DiffBuilder) : RunState :=
  ⟨b.deletedLines, b.numberOfLastDeletedLine, b.deletions⟩

/-- The insertion half of a builder, as `registerInsertedLine` passes it on. -/
def DiffBuilder.insState (b : DiffBuilder) : RunState :=
  ⟨b.insertedLines, b.numberOfLastInsertedLine, b.insertions⟩

/-- `DiffBuilder::registerDeletedLine` (DiffBuilder.cc:21-25). -/
def DiffBuilder.registerDeletedLine (b : DiffBuilder) (index : Nat) (text : String) :
    DiffBuilder :=
  let r := registerNewLine b.delState (Line.mk index text) ElementType.DELETION
  { b with deletedLines := r.lines, numberOfLastDeletedLine := r.lastNum,
           deletions := r.elements }

/-- `DiffBuilder::registerInsertedLine` (DiffBuilder.cc:27-31). -/
def DiffBuilder.registerInsertedLine (b : DiffBuilder) (index : Nat) (text : String) :
    DiffBuilder :=
  let r := registerNewLine b.insState (Line.mk index text) ElementType.INSERTION
  { b with insertedLines := r.lines, numberOfLastInsertedLine := r.lastNum,
           insertions := r.elements }

/-- The static function `addFinalElementAndClear` (DiffBuilder.cc:33-40), on the pair
(lines, elements). -/
def addFinalElementAndClear (lines : List Line) (elements : List DiffElement)
    (type : ElementType) : List Line × List DiffElement :=
  if lines.length ≠ 0 then ([], elements ++ [DiffElement.mk type lines])
  else (lines, elements)

/-- `DiffBuilder::build` (DiffBuilder.cc:42-53): the returned `FileDiff` and the builder
as the call leaves it. -/
def DiffBuilder.build (b : DiffBuilder) : FileDiff × DiffBuilder :=
  let d := addFinalElementAndClear b.deletedLines b.deletions ElementType.DELETION
  let i := addFinalElementAndClear b.insertedLines b.insertions ElementType.INSERTION
  (FileDiff.mk i.2 d.2,
   { b with deletedLines := d.1, insertedLines := i.1, insertions := [], deletions := [] })

/-- A freshly constructed builder: the four vectors are empty; the two `unsigned int`
members are not given a value by the code that is shown, so they are arbitrary. -/
def DiffBuilder.fresh (lastDel lastIns : Nat) : DiffBuilder :=
  ⟨[], [], lastDel, lastIns, [], []⟩

/-- One call made on a builder between two builds. -/
inductive DiffCall where
  | deleted (index : Nat) (text : String)
  | inserted (index : Nat) (text : String)
deriving DecidableEq, Repr

/-- The builder after one call. -/
def DiffBuilder.call (b : DiffBuilder) : DiffCall → DiffBuilder
  | .deleted i t => b.registerDeletedLine i t
  | .inserted i t => b.registerInsertedLine i t

/-- The builder after a sequence of calls, made in order. -/
def DiffBuilder.calls (b : DiffBuilder) (cs : List DiffCall) : DiffBuilder :=
  cs.foldl DiffBuilder.call b

/-- The deleted lines a sequence of calls registers, in call order. -/
def deletedObservations : List DiffCall → List Line
  | [] => []
  | .deleted i t :: cs => Line.mk i t :: deletedObservations cs
  | .inserted _ _ :: cs => deletedObservations cs

/-- The inserted lines a sequence of calls registers, in call order. -/
def insertedObservations : List DiffCall → List Line
  | [] => []
  | .deleted _ _ :: cs => insertedObservations cs
  | .inserted i t :: cs => Line.mk i t :: insertedObservations cs

/-- Whether line `b`, registered right after line `a`, extends the run `a` is in:
the contiguity rule of the given kind. -/
def extendsRun (type : ElementType) (a b : Line) : Prop :=
  b.number = expectedNumber type a.number

instance (type : ElementType) (a b : Line) : Decidable (extendsRun type a b) := by
  unfold extendsRun; infer_instance

/-- The number of adjacent pairs of a sequence of lines that break the contiguity rule. -/
def breaks (type : ElementType) : List Line → Nat
  | [] => 0
  | [_] => 0
  | a :: b :: rest => (if extendsRun type a b then 0 else 1) + breaks type (b :: rest)

/-- The elements `es` are a partition of the observations `obs` into runs of the kind
`type`: in order they hold exactly the observations, none is empty, and each obeys the
contiguity rule inside. -/
def IsRunPartition (type : ElementType) (obs : List Line) (es : List (List Line)) : Prop :=
  es.flatten = obs ∧ (∀ e ∈ es, e ≠ []) ∧ (∀ e ∈ es, e.Chain' (extendsRun type))

/-- The elements `es` are the partition of `obs` into maximal runs: a run partition whose
elements carry the kind `type`, in which the first line of every element after the first
breaks the contiguity rule against the last line of the element before it, and which has
no more elements than any run partition of `obs`. -/
def IsMaximalRuns (type : ElementType) (obs : List Line) (es : List DiffElement) : Prop :=
  IsRunPartition type obs (es.map DiffElement.lines) ∧
  (∀ e ∈ es, e.type = type) ∧
  (es.map DiffElement.lines).Chain'
    (fun e1 e2 => ∀ a ∈ e1.getLast?, ∀ b ∈ e2.head?, ¬ extendsRun type a b) ∧
  (∀ ps : List (List Line), IsRunPartition type obs ps → es.length ≤ ps.length)


/-- The run state after `registerNewLine` has been called for each of `ls` in order. -/
def registerLines (type : ElementType) (st : RunState) (ls : List Line) : RunState :=
  ls.foldl (fun s l => registerNewLine s l type) st

/-- The boundary condition between two neighbouring elements: the first line of the second
breaks the contiguity rule against the last line of the first. -/
def boundaryBroken (type : ElementType) (e1 e2 : List Line) : Prop :=
  ∀ a ∈ e1.getLast?, ∀ b ∈ e2.head?, ¬ extendsRun type a b

/-- The loop invariant of `registerNewLine`: what the sealed elements and the pending
lines of a run state are, after the observations `obs` of one kind. -/
structure RunInv (type : ElementType) (obs : List Line) (st : RunState) : Prop where
  flat : (st.elements.map DiffElement.lines).flatten ++ st.lines = obs
  kind : ∀ e ∈ st.elements, e.type = type
  nonempty : ∀ e ∈ st.elements, e.lines ≠ []
  inside : ∀ e ∈ st.elements, e.lines.Chain' (extendsRun type)
  pending : st.lines.Chain' (extendsRun type)
  last : ∀ a ∈ st.lines.getLast?, st.lastNum = a.number
  bounds : (st.elements.map DiffElement.lines ++ [st.lines]).Chain' (boundaryBroken type)
  start : st.lines = [] → st.elements = []

/-! ## Definitions: `OperationAccumulator.cc`

`OperationAccumulator.cc` calls into parts of the program that are not among the sources
(`FileSystemInterface`, `FileParser`, `FileWriter`, `DiffInterface`, `FileDiff`'s
queries, `CommitHash`, the commit tree) and into the C++ library (`std::ofstream`). They
are the fields of `Extern`, with no assumption on what they compute; everything below is
parameterised by an `E : Extern`. -/

/-- The collaborators of `OperationAccumulator.cc`, as parameters. -/
structure Extern where
  /-- The state of the file system, with the output stream the program has open. -/
  Disk : Type
  /-- The class of the member `tree`. -/
  Tree : Type
  /-- The class `CommitHash`. -/
  Hash : Type
  /-- The static state of `CommitHash` (`curCommitCounter` and what goes with it). -/
  Counter : Type
  /-- `FileSystemInterface::fileExists`. -/
  fileExists : Disk → String → Bool
  /-- `FileSystemInterface::createDirectory`: the returned `int` and the disk after. -/
  createDirectory : Disk → String → Int × Disk
  /-- `FileSystemInterface::createDirectories(base, directories)`. -/
  createDirectories : Disk → String → List String → Disk
  /-- `FileSystemInterface::parseDirectoryStructure(path, directories)`: the directories. -/
  parseDirectoryStructure : String → List String
  /-- `FileSystemInterface::appendPath`. -/
  appendPath : String → String → String
  /-- `FileParser::readFile(path, lines)`: the lines it puts into the empty vector. -/
  readFile : Disk → String → List String
  /-- `FileParser::compareFiles`. -/
  compareFiles : Disk → String → String → Bool
  /-- `FileWriter::writeFile(path, lines)`. -/
  writeFile : Disk → String → List String → Disk
  /-- A `std::ofstream` opened on a path for output, given a text with `<<`, and closed,
  where the program does nothing else between the opening and the closing. -/
  writeText : Disk → String → String → Disk
  /-- `std::ofstream::open(path, fstream::out)`; the disk holds the stream while it is open,
  with what the stream has been given and not yet put into the file. -/
  openStream : Disk → String → Disk
  /-- One `<<` of a text on the stream that was opened on a path. -/
  putStream : Disk → String → String → Disk
  /-- `std::ofstream::flush()` of the stream that was opened on a path. -/
  flushStream : Disk → String → Disk
  /-- `std::ofstream::close()` of the stream that was opened on a path. -/
  closeStream : Disk → String → Disk
  /-- `DiffInterface::calculateFileDiff`. -/
  calculateFileDiff : Disk → String → String → FileDiff
  /-- `FileDiff::isEmptyDiff`. -/
  isEmptyDiff : FileDiff → Bool
  /-- `FileDiff::getNumInsertions`. -/
  getNumInsertions : FileDiff → Nat
  /-- `FileDiff::getNumDeletions`. -/
  getNumDeletions : FileDiff → Nat
  /-- `FileDiff::print(path)`. -/
  printDiff : Disk → FileDiff → String → Disk
  /-- `CommitHash::CommitHash()`: the new hash and the static state after. -/
  newHash : Counter → Hash × Counter
  /-- `CommitHash::CommitHash(const std::string&)`; `none` when it does not return. -/
  hashOfString : String → Option Hash
  /-- `CommitHash::toString`. -/
  hashToString : Hash → String
  /-- `CommitHash::getLatestGeneratedHash`; `none` when it does not return. -/
  getLatestGeneratedHash : Counter → Option Hash
  /-- `CommitHash::setSeed`; `none` when it does not return. -/
  setSeed : String → Counter → Option Counter
  /-- `CommitHash::getNullHash`. -/
  getNullHash : String
  /-- The tree a default-constructed member `tree` is. -/
  treeDefault : Tree
  /-- The tree's `initialize(branch)`. -/
  treeInit : Tree → String → Tree
  /-- The tree's `getPrintableTree(lines)`: the lines it puts into the empty vector. -/
  getPrintableTree : Tree → List String
  /-- The tree's `initializeTree(lines, curBranch, curCommit)`: the returned `bool` and the
  tree after. -/
  initializeTree : Tree → List String → String → String → Bool × Tree
  /-- The tree's `addCommit(hash)`. -/
  addCommit : Tree → Hash → Tree
  /-- The tree's `registerNewBranch(name)`. -/
  registerNewBranch : Tree → String → Tree

/-- `s.find(p) == 0` for `std::string`s: `p` stands at the start of `s`. -/
def findsAtStart (s p : String) : Bool := p.data.isPrefixOf s.data

/-- `s.substr(pos)` for `pos <= s.length()`. -/
def substr (s : String) (pos : Nat) : String := ⟨s.data.drop pos⟩

/-- `s.substr(0, len)`. -/
def substrTo (s : String) (len : Nat) : String := ⟨s.data.take len⟩

/-- `set.insert(x)` on a `std::set<std::string>`, held as its elements in iteration order
(ascending). -/
def setInsert (x : String) : List String → List String
  | [] => [x]
  | y :: ys =>
    if x.data < y.data then x :: y :: ys
    else if x = y then y :: ys
    else y :: setInsert x ys

/-- The entries of the member `fileNames`, set by the constructor
(OperationAccumulator.cc:15-21). -/
def ADDED_FILES : String := ".kil/.addedFiles.txt"
def BASIC_INFO : String := ".kil/.basicInfo.txt"
def BRANCH_LIST : String := ".kil/.branches.txt"
def COMMIT_DIR : String := ".kil/.commits"
def MAIN_DIR : String := ".kil"
def TRACKED_FILES : String := ".kil/.trackedFiles.txt"
def TREE_FILE : String := ".kil/.tree.txt"

/-- The members of an `OperationAccumulator` that the code reads and writes
(`fileNames` is constant after construction). `curCommit` is a pointer: `none` is `NULL`. -/
structure OperationAccumulator (E : Extern) where
  projectInit : Bool
  initialCommitPerformed : Bool
  curCommit : Option E.Hash
  projectName : String
  curBranch : String
  trackedFiles : List String
  addedFiles : List String
  branches : List String
  tree : E.Tree

/-- What an `OperationAccumulator` works in: the disk, the static state of `CommitHash`,
and the lines printed to `std::cout` so far. -/
structure World (E : Extern) where
  disk : E.Disk
  counter : E.Counter
  cout : List String

/-- `std::cout << line << std::endl`. -/
def World.print {E : Extern} (w : World E) (line : String) : World E :=
  { w with cout := w.cout ++ [line] }

/-- The constructor (OperationAccumulator.cc:13-22). -/
def OperationAccumulator.new (E : Extern) : OperationAccumulator E :=
  { projectInit := false, initialCommitPerformed := false, curCommit := none,
    projectName := "", curBranch := "", trackedFiles := [], addedFiles := [],
    branches := [], tree := E.treeDefault }

/-- `OperationAccumulator::initializeProject` (OperationAccumulator.cc:28-35). -/
def initializeProject {E : Extern} (s : OperationAccumulator E) (fileName : String) :
    OperationAccumulator E :=
  { s with projectInit := true, projectName := fileName, curBranch := "Master",
           tree := E.treeInit s.tree "Master", branches := setInsert "Master" s.branches }

/-- `OperationAccumulator::alreadyTracked` (OperationAccumulator.cc:37-51). -/
def alreadyTracked {E : Extern} (s : OperationAccumulator E) (fileName : String) : Bool :=
  if s.trackedFiles.any (fun file => fileName == file) then true
  else if s.addedFiles.any (fun file => fileName == file) then true
  else false

/-- `OperationAccumulator::addFile` (OperationAccumulator.cc:53-61). -/
def addFile {E : Extern} (s : OperationAccumulator E) (fileName : String) :
    Bool × OperationAccumulator E :=
  if !alreadyTracked s fileName then
    (true, { s with addedFiles := s.addedFiles ++ [fileName] })
  else (false, s)

/-- The text `outputVectorInfoToFile` sends to its stream: every line followed by a
newline (OperationAccumulator.cc:68-70). -/
def linesText : List String → String
  | [] => ""
  | line :: rest => line ++ "\n" ++ linesText rest

/-- `OperationAccumulator::readAddedAndTrackedFiles` (OperationAccumulator.cc:136-156). -/
def readAddedAndTrackedFiles {E : Extern} (s : OperationAccumulator E) (d : E.Disk) :
    Bool × OperationAccumulator E :=
  if !E.fileExists d TRACKED_FILES || !E.fileExists d ADDED_FILES then (false, s)
  else
    (true, { s with trackedFiles := s.trackedFiles ++ E.readFile d TRACKED_FILES,
                    addedFiles := s.addedFiles ++ E.readFile d ADDED_FILES })

/-- `OperationAccumulator::readBasicInfo` (OperationAccumulator.cc:158-212); `none` when
`CommitHash(const std::string&)` or `setSeed` does not return. -/
def readBasicInfo {E : Extern} (s : OperationAccumulator E) (w : World E) :
    Option (Bool × OperationAccumulator E × World E) :=
  if !E.fileExists w.disk BASIC_INFO then some (false, s, w)
  else
    let lines := E.readFile w.disk BASIC_INFO
    if lines.length < 3 then some (false, s, w)
    else
      let projNameLine := lines.getD 0 ""
      let curBranchLine := lines.getD 1 ""
      let initialCommitLine := lines.getD 2 ""
      if !findsAtStart projNameLine "projName=" ||
          (substr projNameLine 9).length == 0 ||
          !findsAtStart curBranchLine "curBranch=" ||
          (substr curBranchLine 10).length == 0 ||
          !findsAtStart initialCommitLine "initialCommit=" then some (false, s, w)
      else
        let initialCommitString := substr initialCommitLine 14
        if initialCommitString ≠ "true" ∧ initialCommitString ≠ "false" then
          some (false, s, w)
        else
          let s1 : OperationAccumulator E :=
            { s with projectName := substr projNameLine 9,
                     curBranch := substr curBranchLine 10,
                     initialCommitPerformed := decide (initialCommitString = "true") }
          if s1.initialCommitPerformed then
            let curCommitLine := lines.getD 3 ""
            let lastHashLine := lines.getD 4 ""
            if lines.length ≠ 5 ||
                !findsAtStart curCommitLine "curCommit=" ||
                (substr curCommitLine 10).length == 0 ||
                !findsAtStart lastHashLine "lastHash=" ||
                (substr lastHashLine 9).length == 0 then some (false, s1, w)
            else
              match E.hashOfString (substr curCommitLine 10) with
              | none => none
              | some h =>
                match E.setSeed (substr lastHashLine 9) w.counter with
                | none => none
                | some c => some (true, { s1 with curCommit := some h }, { w with counter := c })
          else some (true, s1, w)

/-- `OperationAccumulator::readTree` (OperationAccumulator.cc:214-225). -/
def readTree {E : Extern} (s : OperationAccumulator E) (d : E.Disk) :
    Bool × OperationAccumulator E :=
  if !E.fileExists d TREE_FILE then (false, s)
  else
    let lines := E.readFile d TREE_FILE
    let r := E.initializeTree s.tree lines s.curBranch
      (match s.curCommit with
       | none => E.getNullHash
       | some cur => E.hashToString cur)
    (r.1, { s with tree := r.2 })

/-- `OperationAccumulator::readInBranches` (OperationAccumulator.cc:227-241). -/
def readInBranches {E : Extern} (s : OperationAccumulator E) (d : E.Disk) :
    Bool × OperationAccumulator E :=
  if !E.fileExists d BRANCH_LIST then (false, s)
  else
    let lines := E.readFile d BRANCH_LIST
    let inserted := lines.foldl (fun bs branchLine => setInsert branchLine bs) s.branches
    (true, { s with branches := inserted })

/-- The message `initialize` prints when a record is missing or malformed. -/
def tamperedError : String := "Error! KIL information tampered with or missing!"

/-- `OperationAccumulator::initialize` (OperationAccumulator.cc:243-260). The four reads
are joined by `||`, so a later one runs only when the earlier ones returned true. -/
def initializeAccumulator {E : Extern} (s : OperationAccumulator E) (w : World E) :
    Option (Bool × OperationAccumulator E × World E) :=
  if !E.fileExists w.disk MAIN_DIR then some (true, s, w)
  else
    let s0 := { s with projectInit := true }
    match readBasicInfo s0 w with
    | none => none
    | some (false, s1, w1) => some (false, s1, w1.print tamperedError)
    | some (true, s1, w1) =>
      match readTree s1 w1.disk with
      | (false, s2) => some (false, s2, w1.print tamperedError)
      | (true, s2) =>
        match readAddedAndTrackedFiles s2 w1.disk with
        | (false, s3) => some (false, s3, w1.print tamperedError)
        | (true, s3) =>
          match readInBranches s3 w1.disk with
          | (false, s4) => some (false, s4, w1.print tamperedError)
          | (true, s4) => some (true, s4, w1)

/-- The loop of `OperationAccumulator::calculateRemovalsAndDiffs`
(OperationAccumulator.cc:291-309) over the tracked files still to visit, with the two
output vectors as filled so far; `none` when `curCommit` is dereferenced while `NULL`. -/
def calculateRemovalsAndDiffsLoop {E : Extern} (s : OperationAccumulator E) (d : E.Disk) :
    List String → List String × List (String × FileDiff) →
      Option (List String × List (String × FileDiff))
  | [], out => some out
  | trackedFile :: rest, (removedFiles, diffs) =>
    if E.fileExists d trackedFile then
      match s.curCommit with
      | none => none
      | some cur =>
        let previousCommitFileName :=
          E.appendPath (E.appendPath COMMIT_DIR (E.hashToString cur)) trackedFile
        let diff := E.calculateFileDiff d previousCommitFileName trackedFile
        if !E.isEmptyDiff diff then
          calculateRemovalsAndDiffsLoop s d rest (removedFiles, diffs ++ [(trackedFile, diff)])
        else calculateRemovalsAndDiffsLoop s d rest (removedFiles, diffs)
    else calculateRemovalsAndDiffsLoop s d rest (removedFiles ++ [trackedFile], diffs)

/-- `OperationAccumulator::calculateRemovalsAndDiffs` (OperationAccumulator.cc:288-310),
called with two empty vectors: the removed files and the diffs. -/
def calculateRemovalsAndDiffs {E : Extern} (s : OperationAccumulator E) (d : E.Disk) :
    Option (List String × List (String × FileDiff)) :=
  calculateRemovalsAndDiffsLoop s d s.trackedFiles ([], [])

/-- `OperationAccumulator::createNewCommitDirectory` (OperationAccumulator.cc:312-323). -/
def createNewCommitDirectory {E : Extern} (s : OperationAccumulator E) (d : E.Disk)
    (newCommitDirectoryPath : String) : E.Disk :=
  let d1 :=
    if !s.initialCommitPerformed then
      E.createDirectories d "" (E.parseDirectoryStructure newCommitDirectoryPath)
    else d
  (E.createDirectory d1 newCommitDirectoryPath).2

/-- `OperationAccumulator::calculateFileLocationForHash`
(OperationAccumulator.cc:325-332). -/
def calculateFileLocationForHash (E : Extern) (hash : E.Hash) : String :=
  let path := E.appendPath COMMIT_DIR (E.hashToString hash)
  let path := E.appendPath path (E.hashToString hash)
  path ++ ".txt"

/-- The `childCommits=[` that starts line 4 of a commit record. -/
def CHILD_COMMITS_OPEN : String := "childCommits=["

/-- The lines `updateParentCommit` writes back for the lines it read
(OperationAccumulator.cc:336-358), given the child's hash as a string; `none` when one of
the three assertions fails. -/
def updatedParentRecord (fileContents : List String) (childHash : String) :
    Option (List String) :=
  if ¬ (fileContents.length ≥ 8) then none
  else
    let childLine := fileContents.getD 4 ""
    if ¬ (findsAtStart childLine CHILD_COMMITS_OPEN = true) then none
    else if ¬ (childLine.data.getLast? = some ']') then none
    else
      let listOfChildren := substr childLine 14
      let listOfChildren := substrTo listOfChildren (listOfChildren.length - 1)
      if listOfChildren.length == 0 then
        some (fileContents.set 4 (CHILD_COMMITS_OPEN ++ childHash ++ "]"))
      else
        some (fileContents.set 4
          (CHILD_COMMITS_OPEN ++ listOfChildren ++ "," ++ childHash ++ "]"))

/-- `OperationAccumulator::updateParentCommit` (OperationAccumulator.cc:334-361); `none`
when `curCommit` is dereferenced while `NULL` or an assertion fails. -/
def updateParentCommit {E : Extern} (s : OperationAccumulator E) (d : E.Disk)
    (childHash : E.Hash) : Option E.Disk :=
  match s.curCommit with
  | none => none
  | some cur =>
    let path := calculateFileLocationForHash E cur
    match updatedParentRecord (E.readFile d path) (E.hashToString childHash) with
    | none => none
    | some fileContents => some (E.writeFile d path fileContents)

/-- The insertions `output << text` of the texts, in order, on the stream that was opened
on `path`. -/
def putAll (E : Extern) (d : E.Disk) (path : String) (texts : List String) : E.Disk :=
  texts.foldl (fun acc text => E.putStream acc path text) d

/-- `OperationAccumulator::writeBasicCommitInfo` (OperationAccumulator.cc:363-378): the
stream `output` is opened on `newCommitFileName + ".txt"` and given the five lines, one
`<<` after the other. `none` when `curCommit` is dereferenced while `NULL`. -/
def writeBasicCommitInfo {E : Extern} (s : OperationAccumulator E) (d : E.Disk)
    (newCommitFileName : String) (hash : E.Hash) (commitMessage : String) :
    Option E.Disk :=
  let output := newCommitFileName ++ ".txt"
  let d1 := E.openStream d output
  let d2 := putAll E d1 output ["commitHash=", E.hashToString hash, "\n"]
  let d3 := putAll E d2 output ["commitMessage=\"", commitMessage, "\"\n"]
  let d4 := putAll E d3 output ["branch=", s.curBranch, "\n"]
  let d5 := putAll E d4 output ["parentCommit="]
  let parent : Option String :=
    if s.initialCommitPerformed then s.curCommit.map E.hashToString else some "ROOT"
  match parent with
  | none => none
  | some text =>
    let d6 := putAll E d5 output [text]
    let d7 := putAll E d6 output ["\n"]
    some (putAll E d7 output ["childCommits=[]\n"])

/-- `OperationAccumulator::removeDeletedFilesFromLists`
(OperationAccumulator.cc:392-406): for each removed file, its first occurrence is erased
from `trackedFiles` and from `addedFiles`. -/
def removeDeletedFilesFromLists {E : Extern} (s : OperationAccumulator E)
    (removedFiles : List String) : OperationAccumulator E :=
  removedFiles.foldl
    (fun st removedFile =>
      { st with trackedFiles := st.trackedFiles.erase removedFile,
                addedFiles := st.addedFiles.erase removedFile })
    s

/-- The second loop of `writeOutAddedFiles` (OperationAccumulator.cc:417-426): the
snapshot of every new file is written under the new commit's directory. -/
def writeOutAddedSnapshots (E : Extern) (d : E.Disk) (newCommitDirectoryPath : String) :
    List String → E.Disk
  | [] => d
  | newFile :: rest =>
    let d1 := E.createDirectories d newCommitDirectoryPath
      (E.parseDirectoryStructure newFile)
    let fileLines := E.readFile d1 newFile
    let d2 := E.writeFile d1 (E.appendPath newCommitDirectoryPath newFile) fileLines
    writeOutAddedSnapshots E d2 newCommitDirectoryPath rest

/-- `OperationAccumulator::writeOutAddedFiles` (OperationAccumulator.cc:408-427), on the
disk: the stream opened on `output` is given the number of added files and their names,
then the snapshots are written. What it prints is in `commitMessages`. -/
def writeOutAddedFiles (E : Extern) (d : E.Disk) (output : String) (addedFiles : List String)
    (newCommitDirectoryPath : String) : E.Disk :=
  let d1 := putAll E d output ["addedFiles [", toString addedFiles.length, "]\n"]
  let d2 := addedFiles.foldl (fun acc addedFile => putAll E acc output [addedFile, "\n"]) d1
  writeOutAddedSnapshots E d2 newCommitDirectoryPath addedFiles

/-- The loop of `writeOutCommit` over the diffs (OperationAccumulator.cc:463-474), on the
disk: every diff is printed under the new commit's directory. -/
def writeOutDiffs (E : Extern) (d : E.Disk) (newCommitDirectoryPath : String) :
    List (String × FileDiff) → E.Disk
  | [] => d
  | diffInfo :: rest =>
    let d1 := E.createDirectories d newCommitDirectoryPath
      (E.parseDirectoryStructure diffInfo.1)
    let d2 := E.printDiff d1 diffInfo.2 (E.appendPath newCommitDirectoryPath diffInfo.1)
    writeOutDiffs E d2 newCommitDirectoryPath rest

/-- The lines `writeOutCommit` prints to `std::cout`. -/
def commitMessages (E : Extern) (addedFiles removedFiles : List String)
    (diffs : List (String × FileDiff)) : List String :=
  addedFiles.map (fun addedFile => "Created file " ++ addedFile) ++
  removedFiles.map (fun removedFile => "Removed file " ++ removedFile) ++
  diffs.map (fun diffInfo =>
    "Updating file " ++ diffInfo.1 ++ " with " ++
      toString (E.getNumInsertions diffInfo.2) ++ " insertions and " ++
      toString (E.getNumDeletions diffInfo.2) ++ " deletions")

/-- The path of the record `writeOutCommit` writes for a new hash: `newCommitFileName`
with the `.txt` that `writeBasicCommitInfo` appends. -/
def newCommitRecordPath (E : Extern) (hash : E.Hash) : String :=
  E.appendPath (E.appendPath COMMIT_DIR (E.hashToString hash)) (E.hashToString hash) ++ ".txt"

/-- `OperationAccumulator::writeOutCommit` (OperationAccumulator.cc:429-486). The record's
stream is opened by `writeBasicCommitInfo`, before the snapshots and the diffs are written,
and it is flushed and closed after them. `none` when `curCommit` is dereferenced while
`NULL` or an assertion of `updateParentCommit` fails. -/
def writeOutCommit {E : Extern} (s : OperationAccumulator E) (w : World E)
    (commitMessage : String) (addedFiles removedFiles : List String)
    (diffs : List (String × FileDiff)) : Option (OperationAccumulator E × World E) :=
  let h := E.newHash w.counter
  let hash := h.1
  let newCommitDirectoryPath := E.appendPath COMMIT_DIR (E.hashToString hash)
  let d1 := createNewCommitDirectory s w.disk newCommitDirectoryPath
  let newCommitFileName := E.appendPath newCommitDirectoryPath (E.hashToString hash)
  let output := newCommitFileName ++ ".txt"
  match writeBasicCommitInfo s d1 newCommitFileName hash commitMessage with
  | none => none
  | some d2 =>
    let d3 := writeOutAddedFiles E d2 output addedFiles newCommitDirectoryPath
    let d4 := putAll E d3 output ["removedFiles [", toString removedFiles.length, "]\n"]
    let d5 := removedFiles.foldl
      (fun acc removedFile => putAll E acc output [removedFile, "\n"]) d4
    let s1 := removeDeletedFilesFromLists s removedFiles
    let d6 := putAll E d5 output ["diffs [", toString diffs.length, "]\n"]
    let d7 := writeOutDiffs E d6 newCommitDirectoryPath diffs
    let d8 := E.closeStream (E.flushStream d7 output) output
    let cout := w.cout ++ commitMessages E addedFiles removedFiles diffs
    if s1.initialCommitPerformed then
      match updateParentCommit s1 d8 hash with
      | none => none
      | some d9 =>
        some ({ s1 with curCommit := some hash }, { disk := d9, counter := h.2, cout := cout })
    else
      some ({ s1 with curCommit := some hash }, { disk := d8, counter := h.2, cout := cout })

/-- `OperationAccumulator::getAddedFiles` (OperationAccumulator.cc:488-497), called with
an empty vector. -/
def getAddedFiles {E : Extern} (s : OperationAccumulator E) (d : E.Disk) : List String :=
  s.addedFiles.filter (fun addedFile => E.fileExists d addedFile)

/-- `OperationAccumulator::commit` (OperationAccumulator.cc:499-535); `none` when the run
is aborted by a `NULL` dereference or a failed assertion. -/
def commit {E : Extern} (s : OperationAccumulator E) (w : World E) (commitMessage : String)
    (addFlag : Bool) : Option (Bool × OperationAccumulator E × World E) :=
  let verifiedAddedFiles := if addFlag then getAddedFiles s w.disk else []
  match calculateRemovalsAndDiffs s w.disk with
  | none => none
  | some (removedFiles, diffs) =>
    if verifiedAddedFiles.length == 0 && removedFiles.length == 0 && diffs.length == 0 then
      some (false, s, w)
    else
      match writeOutCommit s w commitMessage verifiedAddedFiles removedFiles diffs with
      | none => none
      | some (s1, w1) =>
        let s2 :=
          if addFlag then
            { s1 with trackedFiles := s1.trackedFiles ++ verifiedAddedFiles, addedFiles := [] }
          else s1
        let s3 := { s2 with initialCommitPerformed := true }
        match s3.curCommit with
        | none => none
        | some cur => some (true, { s3 with tree := E.addCommit s3.tree cur }, w1)

/-- `OperationAccumulator::filesHaveBeenAdded` (OperationAccumulator.cc:578-586). -/
def filesHaveBeenAdded {E : Extern} (s : OperationAccumulator E) (d : E.Disk) : Bool :=
  s.addedFiles.any (fun addedFile => E.fileExists d addedFile)

/-- The loop of `OperationAccumulator::filesHaveBeenRemovedOrModified`
(OperationAccumulator.cc:589-603) over the tracked files still to visit; `none` when
`curCommit` is dereferenced while `NULL`. -/
def filesHaveBeenRemovedOrModifiedLoop {E : Extern} (s : OperationAccumulator E)
    (d : E.Disk) : List String → Option Bool
  | [] => some false
  | trackedFile :: rest =>
    if E.fileExists d trackedFile then
      match s.curCommit with
      | none => none
      | some cur =>
        let previousCommitFileName :=
          E.appendPath (E.appendPath COMMIT_DIR (E.hashToString cur)) trackedFile
        if !E.compareFiles d previousCommitFileName trackedFile then some true
        else filesHaveBeenRemovedOrModifiedLoop s d rest
    else some true

/-- `OperationAccumulator::filesHaveBeenRemovedOrModified`
(OperationAccumulator.cc:588-606). -/
def filesHaveBeenRemovedOrModified {E : Extern} (s : OperationAccumulator E)
    (d : E.Disk) : Option Bool :=
  filesHaveBeenRemovedOrModifiedLoop s d s.trackedFiles

/-- `OperationAccumulator::cleanState` (OperationAccumulator.cc:608-614): the second test
runs only when the first is false. -/
def cleanState {E : Extern} (s : OperationAccumulator E) (d : E.Disk) : Option Bool :=
  if filesHaveBeenAdded s d then some false
  else
    match filesHaveBeenRemovedOrModified s d with
    | none => none
    | some true => some false
    | some false => some true

/-- The message of `createNewBranch` for a working tree that is not clean. -/
def commitBeforeNewBranch : String := "Please commit changes before checking out new branch!"

/-- The message of `switchBranch` for a working tree that is not clean. -/
def commitBeforeSwitch : String := "Please commit changes before checking out branch!"

/-- `OperationAccumulator::createNewBranch` (OperationAccumulator.cc:566-576). -/
def createNewBranch {E : Extern} (s : OperationAccumulator E) (w : World E)
    (newBranchName : String) : Option (OperationAccumulator E × World E) :=
  match cleanState s w.disk with
  | none => none
  | some false => some (s, w.print commitBeforeNewBranch)
  | some true =>
    some ({ s with curBranch := newBranchName,
                   tree := E.registerNewBranch s.tree newBranchName,
                   branches := setInsert newBranchName s.branches }, w)

/-- `OperationAccumulator::switchBranch` (OperationAccumulator.cc:616-630). After the two
checks the function body ends: nothing is assigned. -/
def switchBranch {E : Extern} (s : OperationAccumulator E) (w : World E)
    (branchName : String) : Option (OperationAccumulator E × World E) :=
  if s.branches.count branchName == 0 then
    some (s, w.print ("No branch named " ++ branchName ++ " found!"))
  else
    match cleanState s w.disk with
    | none => none
    | some false => some (s, w.print commitBeforeSwitch)
    | some true => some (s, w)

/-- The lines `getStatus` prints for the three vectors it has computed
(OperationAccumulator.cc:546-563). -/
def statusLines (verifiedAddedFiles removedFiles : List String)
    (diffs : List (String × FileDiff)) : List String :=
  if verifiedAddedFiles.length == 0 && removedFiles.length == 0 && diffs.length == 0 then
    ["No new changes to be commited!"]
  else
    ["Changes to be committed:"] ++
    verifiedAddedFiles.map (fun addedFileName => "new file: " ++ addedFileName) ++
    diffs.map (fun diff => "modified: " ++ diff.1) ++
    removedFiles.map (fun removedFile => "deleted: " ++ removedFile)

/-- `OperationAccumulator::getStatus` (OperationAccumulator.cc:537-564); `none` when
`curCommit` is dereferenced while `NULL`. -/
def getStatus {E : Extern} (s : OperationAccumulator E) (w : World E) : Option (World E) :=
  match calculateRemovalsAndDiffs s w.disk with
  | none => none
  | some (removedFiles, diffs) =>
    some { w with cout := w.cout ++ statusLines (getAddedFiles s w.disk) removedFiles diffs }

/-- Modelled from the spec: `FileParser::readFile` is not among the sources; the spec has
it return the lines of the file (`readLines(path) -> sequence of string`). The lines of a
text are read the way a `getline` loop reads them: a line ends at a newline, and a last line
without one counts when it is not empty. `cur` is the line read so far, in reverse. -/
def splitLinesAux : List Char → List Char → List String
  | cur, [] => if cur = [] then [] else [String.mk cur.reverse]
  | cur, c :: rest =>
    if c = '\n' then String.mk cur.reverse :: splitLinesAux [] rest
    else splitLinesAux (c :: cur) rest

/-- Modelled from the spec: the lines `FileParser::readFile` returns for a file that holds
`text` (see `splitLinesAux`). -/
def splitLines (text : String) : List String := splitLinesAux [] text.data

/-! ## Definitions: a small instance of the collaborators

`plainExtern` is one `Extern`, small enough to evaluate the code on concrete inputs: a disk
that maps a path to the text stored there and holds the open output stream, hashes that are
numbers written in decimal, and a tree that is the list of its printable lines. The stream
holds what it is given until it is flushed or closed, and then writes it over the file from
its position on. The theorems that follow hold for every `Extern`; this instance only
serves to run them on examples. -/

/-- The parts of a path between its slashes; `cur` is the part read so far, in reverse. -/
def splitPathAux : List Char → List Char → List String
  | cur, [] => [String.mk cur.reverse]
  | cur, c :: rest =>
    if c = '/' then String.mk cur.reverse :: splitPathAux [] rest
    else splitPathAux (c :: cur) rest

/-- An open output stream: the path it was opened on, the number of characters it has put
into the file so far, and the text it has been given and still holds. -/
structure PlainStream where
  path : String
  offset : Nat
  held : String

/-- A disk that maps a path to the text stored there (a directory is stored with no text),
with the output stream that is open, if one is. -/
structure PlainDisk where
  files : String → Option String
  stream : Option PlainStream

/-- The disk with the given files and no open stream. -/
def PlainDisk.ofFiles (files : String → Option String) : PlainDisk := ⟨files, none⟩

/-- The disk with `text` stored at `path`. -/
def PlainDisk.store (d : PlainDisk) (path text : String) : PlainDisk :=
  { d with files := fun p => if p = path then some text else d.files p }

/-- The disk with the directory `path`, unless something is stored there already. -/
def PlainDisk.mkdir (d : PlainDisk) (path : String) : PlainDisk :=
  { d with files := fun p => if p = path then some ((d.files p).getD "") else d.files p }

/-- The content of a file after `text` is written over it from the position `offset` on:
what stands before the position and after the end of the text is kept, and a file that
ends before the position is filled up with null characters. -/
def overwriteAt (content : List Char) (offset : Nat) (text : List Char) : List Char :=
  content.take offset ++ List.replicate (offset - content.length) (Char.ofNat 0) ++ text ++
    content.drop (offset + text.length)

/-- The stream is opened on `path`: the file is created or emptied. -/
def PlainDisk.openStream (d : PlainDisk) (path : String) : PlainDisk :=
  { files := (d.store path "").files, stream := some ⟨path, 0, ""⟩ }

/-- The open stream is given a text, which it holds. -/
def PlainDisk.putStream (d : PlainDisk) (path text : String) : PlainDisk :=
  match d.stream with
  | none => d
  | some st =>
    if st.path = path then { d with stream := some { st with held := st.held ++ text } }
    else d

/-- The open stream puts the text it holds into the file, at its position. -/
def PlainDisk.flushStream (d : PlainDisk) (path : String) : PlainDisk :=
  match d.stream with
  | none => d
  | some st =>
    if st.path = path then
      { files := (d.store path
          (String.mk (overwriteAt ((d.files path).getD "").data st.offset st.held.data))).files,
        stream := some ⟨path, st.offset + st.held.length, ""⟩ }
    else d

/-- The open stream is flushed and closed. -/
def PlainDisk.closeStream (d : PlainDisk) (path : String) : PlainDisk :=
  { d.flushStream path with stream := none }

/-- One step of the reading of a decimal number: the value read so far, extended by a digit. -/
def decimalStep (acc : Option Nat) (c : Char) : Option Nat :=
  acc.bind fun n => if c.isDigit then some (10 * n + (c.toNat - 48)) else none

/-- The value of a string of decimal digits, `none` for any other string. -/
def parseDecimal (s : String) : Option Nat :=
  if s.data = [] then none else s.data.foldl decimalStep (some 0)


/-- A small instance of the collaborators. -/
def plainExtern : Extern where
  Disk := PlainDisk
  Tree := List String
  Hash := Nat
  Counter := Nat
  fileExists := fun d p => (d.files p).isSome
  createDirectory := fun d p => (0, d.mkdir p)
  createDirectories := fun d base dirs =>
    (dirs.foldl (fun (acc : PlainDisk × String) dir =>
      let p := if acc.2 = "" then dir else acc.2 ++ "/" ++ dir
      (acc.1.mkdir p, p)) (d, base)).1
  parseDirectoryStructure := fun path => (splitPathAux [] path.data).dropLast
  appendPath := fun a b => a ++ "/" ++ b
  readFile := fun d p => (d.files p).elim [] splitLines
  compareFiles := fun d a b => decide (d.files a = d.files b)
  writeFile := fun d p lines => d.store p (linesText lines)
  writeText := fun d p text => d.store p text
  openStream := PlainDisk.openStream
  putStream := PlainDisk.putStream
  flushStream := PlainDisk.flushStream
  closeStream := PlainDisk.closeStream
  calculateFileDiff := fun d a b =>
    if d.files a = d.files b then ⟨[], []⟩
    else ⟨[⟨ElementType.INSERTION, [⟨0, (d.files b).getD ""⟩]⟩],
          [⟨ElementType.DELETION, [⟨0, (d.files a).getD ""⟩]⟩]⟩
  isEmptyDiff := fun diff => diff.insertions.isEmpty && diff.deletions.isEmpty
  getNumInsertions := fun diff => diff.insertions.length
  getNumDeletions := fun diff => diff.deletions.length
  printDiff := fun d diff path =>
    d.store path (toString diff.insertions.length ++ " " ++ toString diff.deletions.length)
  newHash := fun c => (c + 1, c + 1)
  hashOfString := parseDecimal
  hashToString := fun h => toString h
  getLatestGeneratedHash := fun c => if c = 0 then none else some c
  setSeed := fun text c => (parseDecimal text).map (fun n => max n c)
  getNullHash := "NULL"
  treeDefault := []
  treeInit := fun _ branch => [branch ++ ":"]
  getPrintableTree := fun t => t
  initializeTree := fun _ lines _ _ => (true, lines)
  addCommit := fun t h => t ++ ["commit " ++ toString h]
  registerNewBranch := fun t name => t ++ [name ++ ":"]

/-- The world of a run that starts on the disk `d`, before any hash is issued. -/
def plainWorld (d : PlainDisk) : World plainExtern := ⟨d, (0 : Nat), []⟩

/-! ## Definitions: the vocabulary of the statements -/

/-- The path under which the snapshot of `file` in the commit `cur` is looked up: the
`previousCommitFileName` of `calculateRemovalsAndDiffs` and
`filesHaveBeenRemovedOrModified`. -/
def snapshotPath (E : Extern) (cur : E.Hash) (file : String) : String :=
  E.appendPath (E.appendPath COMMIT_DIR (E.hashToString cur)) file

/-- The working tree is dirty: some pending-add file exists on disk, or some tracked file
is missing from disk or differs from its snapshot under the current commit. -/
def Dirty {E : Extern} (s : OperationAccumulator E) (d : E.Disk) : Prop :=
  (∃ f ∈ s.addedFiles, E.fileExists d f = true) ∨
  (∃ f ∈ s.trackedFiles, E.fileExists d f = false ∨
    ∃ cur, s.curCommit = some cur ∧ E.compareFiles d (snapshotPath E cur f) f = false)

/-- The dereferences of `curCommit` are safe: there is a current commit, or no file is
tracked (they are made for tracked files only). -/
def CommitKnown {E : Extern} (s : OperationAccumulator E) : Prop :=
  s.trackedFiles = [] ∨ ∃ cur, s.curCommit = some cur

/-- The texts `writeBasicCommitInfo` gives to the stream of a new record, one per `<<`,
when the parent entry is `parent`. -/
def recordHeadTexts (hash commitMessage branch parent : String) : List String :=
  ["commitHash=", hash, "\n", "commitMessage=\"", commitMessage, "\"\n", "branch=", branch,
    "\n", "parentCommit=", parent, "\n", "childCommits=[]\n"]

/-- The texts `writeOutCommit` gives to the stream for a list of files, one per `<<`: the
title with the number of files, then every file followed by a newline. -/
def fileListTexts (title : String) (files : List String) : List String :=
  [title, toString files.length, "]\n"] ++ files.flatMap (fun file => [file, "\n"])

/-- The disk on which the head of the new record has been sent: the directory of the commit
`hash` is made, the stream of its record is opened, and the texts of `recordHeadTexts` are
the first the stream is given. -/
def recordHeadSent {E : Extern} (s : OperationAccumulator E) (d : E.Disk) (hash : E.Hash)
    (commitMessage parent : String) : E.Disk :=
  putAll E
    (E.openStream
      (createNewCommitDirectory s d (E.appendPath COMMIT_DIR (E.hashToString hash)))
      (newCommitRecordPath E hash))
    (newCommitRecordPath E hash)
    (recordHeadTexts (E.hashToString hash) commitMessage s.curBranch parent)

/-- The disk on which `writeOutCommit` has closed the stream of the new record, from the
disk `d` on which the head was sent: the stream is given the list of added files, the
snapshots are written, the stream is given the list of removed files and the number of
diffs, the diffs are printed, and the stream is flushed and closed. -/
def recordClosed (E : Extern) (d : E.Disk) (hash : E.Hash)
    (addedFiles removedFiles : List String) (diffs : List (String × FileDiff)) : E.Disk :=
  E.closeStream
    (E.flushStream
      (writeOutDiffs E
        (putAll E
          (writeOutAddedSnapshots E
            (putAll E d (newCommitRecordPath E hash) (fileListTexts "addedFiles [" addedFiles))
            (E.appendPath COMMIT_DIR (E.hashToString hash)) addedFiles)
          (newCommitRecordPath E hash)
          (fileListTexts "removedFiles [" removedFiles ++
            ["diffs [", toString diffs.length, "]\n"]))
        (E.appendPath COMMIT_DIR (E.hashToString hash)) diffs)
      (newCommitRecordPath E hash))
    (newCommitRecordPath E hash)

/-- The accumulator after `initializeProject("proj")` and `addFile("a.txt")`, as
`plainExtern` runs them. -/
def trackingStarted : OperationAccumulator plainExtern :=
  (addFile (initializeProject (OperationAccumulator.new plainExtern) "proj") "a.txt").2

/-- A disk that holds the file `a.txt` and nothing else. -/
def startDisk : PlainDisk :=
  PlainDisk.ofFiles fun p => if p = "a.txt" then some "hello\n" else none

/-- The tracked files that are missing from disk, in tracked order. -/
def missingTracked {E : Extern} (s : OperationAccumulator E) (d : E.Disk) : List String :=
  s.trackedFiles.filter (fun f => !E.fileExists d f)

/-- The pending-add files that exist on disk, in pending order. -/
def presentAdded {E : Extern} (s : OperationAccumulator E) (d : E.Disk) : List String :=
  s.addedFiles.filter (fun f => E.fileExists d f)

/-- The first three lines of a summary record are well-formed: there are at least three
lines, `projName=` and `curBranch=` are each followed by a non-empty value, and
`initialCommit=` by `true` or `false`. -/
def summaryHeadOk (lines : List String) : Bool :=
  decide (3 ≤ lines.length) &&
  findsAtStart (lines.getD 0 "") "projName=" &&
  !((substr (lines.getD 0 "") 9).length == 0) &&
  findsAtStart (lines.getD 1 "") "curBranch=" &&
  !((substr (lines.getD 1 "") 10).length == 0) &&
  findsAtStart (lines.getD 2 "") "initialCommit=" &&
  (decide (substr (lines.getD 2 "") 14 = "true") ||
    decide (substr (lines.getD 2 "") 14 = "false"))

/-- The summary record of a repository with a commit is complete: it has five lines, and
`curCommit=` and `lastHash=` are each followed by a non-empty value. -/
def summaryTailOk (lines : List String) : Bool :=
  decide (lines.length = 5) &&
  findsAtStart (lines.getD 3 "") "curCommit=" &&
  !((substr (lines.getD 3 "") 10).length == 0) &&
  findsAtStart (lines.getD 4 "") "lastHash=" &&
  !((substr (lines.getD 4 "") 9).length == 0)

/-- The accumulator with the three members set that `readBasicInfo` takes from the first
three lines of the summary record. -/
def withSummaryHead {E : Extern} (s : OperationAccumulator E) (lines : List String) :
    OperationAccumulator E :=
  { s with projectName := substr (lines.getD 0 "") 9,
           curBranch := substr (lines.getD 1 "") 10,
           initialCommitPerformed := decide (substr (lines.getD 2 "") 14 = "true") }

/-- The lines of the summary record on a disk, as `readBasicInfo` reads them. -/
def summaryLines (E : Extern) (d : E.Disk) : List String := E.readFile d BASIC_INFO

/-- The representation invariant of a `std::set<std::string>` held as a list: the elements
stand in strictly ascending order. -/
def SetOrdered (l : List String) : Prop := l.Pairwise (fun a b => a.data < b.data)

/-- The accumulators reachable from `initializeProject(projectName)`, called on a freshly
constructed accumulator, by any sequence of calls of `addFile`, `commit`,
`createNewBranch`, `switchBranch` and `getStatus` that return. Each call finds an arbitrary
world: the files on disk change between calls. -/
inductive ReachableByCalls (E : Extern) : OperationAccumulator E → Prop
  | start (projectName : String) :
      ReachableByCalls E (initializeProject (OperationAccumulator.new E) projectName)
  | addFile (s : OperationAccumulator E) (fileName : String) (hs : ReachableByCalls E s) :
      ReachableByCalls E (addFile s fileName).2
  | commit (s s' : OperationAccumulator E) (w w' : World E) (commitMessage : String)
      (addFlag result : Bool) (hs : ReachableByCalls E s)
      (hcall : commit s w commitMessage addFlag = some (result, s', w')) :
      ReachableByCalls E s'
  | createNewBranch (s s' : OperationAccumulator E) (w w' : World E)
      (newBranchName : String) (hs : ReachableByCalls E s)
      (hcall : createNewBranch s w newBranchName = some (s', w')) :
      ReachableByCalls E s'
  | switchBranch (s s' : OperationAccumulator E) (w w' : World E) (branchName : String)
      (hs : ReachableByCalls E s)
      (hcall : switchBranch s w branchName = some (s', w')) :
      ReachableByCalls E s'
  | getStatus (s : OperationAccumulator E) (w w' : World E) (hs : ReachableByCalls E s)
      (hcall : getStatus s w = some w') :
      ReachableByCalls E s

/-! ## Definitions: example states -/

/-- The accumulator after a first commit (hash 1) of `a.txt` on the branch `Master`, as
`plainExtern` runs it. -/
def committedOnce : OperationAccumulator plainExtern :=
  { projectInit := true, initialCommitPerformed := true, curCommit := some (1 : Nat),
    projectName := "proj", curBranch := "Master", trackedFiles := ["a.txt"],
    addedFiles := [], branches := ["Master"], tree := ["Master:", "commit 1"] }

/-- A disk on which `a.txt` is as the first commit stored it. -/
def cleanDisk : PlainDisk :=
  PlainDisk.ofFiles fun p =>
    if p = "a.txt" ∨ p = ".kil/.commits/1/a.txt" then some "hello\n" else none

/-- A disk on which `a.txt` has been modified since the first commit. -/
def modifiedDisk : PlainDisk :=
  PlainDisk.ofFiles fun p => if p = "a.txt" then some "changed\n"
    else if p = ".kil/.commits/1/a.txt" then some "hello\n" else none

/-- The lines of the record of commit 1 after a first child, commit 2, was added. -/
def recordWithOneChild : List String :=
  ["commitHash=1", "commitMessage=\"first\"", "branch=Master", "parentCommit=ROOT",
    "childCommits=[2]", "addedFiles [1]", "a.txt", "removedFiles [0]", "diffs [0]"]

/-- The accumulator and the world after the first commit of `a.txt`, as `plainExtern`
runs it from `trackingStarted` on `startDisk`; `none` if that commit were aborted. -/
def afterFirstCommit : Option (OperationAccumulator plainExtern × World plainExtern) :=
  (commit trackingStarted (plainWorld startDisk) "first" true).map (fun r => r.2)

/-- The second commit: `a.txt` is modified after the first commit and committed again. -/
def afterSecondCommit : Option (Bool × OperationAccumulator plainExtern × World plainExtern) :=
  afterFirstCommit.bind fun r =>
    commit r.1 { r.2 with disk := r.2.disk.store "a.txt" "changed\n" } "second" false

/-- A second commit that adds a file: after the first commit, `b.txt` is created and added,
and committed with the adds; `a.txt` is left as it is. -/
def afterSecondAdd : Option (Bool × OperationAccumulator plainExtern × World plainExtern) :=
  afterFirstCommit.bind fun r =>
    commit (addFile r.1 "b.txt").2 { r.2 with disk := r.2.disk.store "b.txt" "more\n" }
      "second" true

/-- The accumulator `committedOnce` with two files pending. -/
def committedOncePending : OperationAccumulator plainExtern :=
  { committedOnce with addedFiles := ["b.txt", "never.txt"] }

/-- A world after the first commit in which `a.txt` has been deleted, `b.txt` exists and
`never.txt` does not. -/
def deletedWorld : World plainExtern :=
  { disk := PlainDisk.ofFiles fun p =>
      if p = "b.txt" then some "new\n"
      else if p = ".kil/.commits/1/a.txt" then some "hello\n"
      else if p = ".kil/.commits/1/1.txt" then
        some ("commitHash=1\ncommitMessage=\"first\"\nbranch=Master\nparentCommit=ROOT\n" ++
          "childCommits=[]\naddedFiles [1]\na.txt\nremovedFiles [0]\ndiffs [0]\n")
      else none,
    counter := (1 : Nat),
    cout := [] }

/-- The accumulator `committedOnce` with a second branch, `feature`, in the branch set;
the current branch is `Master`. -/
def twoBranches : OperationAccumulator plainExtern :=
  { committedOnce with
      branches := ["Master", "feature"],
      tree := ["Master:", "commit 1", "feature:"] }

/-- A disk with the `.kil` directory and a summary record whose first three lines are
well-formed, with `initialCommit=true`, and whose `curCommit=` and `lastHash=` lines are
missing. -/
def truncatedSummaryDisk : PlainDisk :=
  PlainDisk.ofFiles fun p => if p = ".kil" then some ""
    else if p = ".kil/.basicInfo.txt" then
      some "projName=p\ncurBranch=dev\ninitialCommit=true\n"
    else none

/-- A disk with the `.kil` directory and a well-formed summary record of a repository
without a commit, and no tree record. -/
def missingTreeDisk : PlainDisk :=
  PlainDisk.ofFiles fun p => if p = ".kil" then some ""
    else if p = ".kil/.basicInfo.txt" then
      some "projName=p\ncurBranch=dev\ninitialCommit=false\n"
    else none

/-- A disk that holds the file `1.txt`, whose name is that of the record of the first
commit, and nothing else; the file is longer than the record will be. -/
def sharedNameDisk : PlainDisk :=
  PlainDisk.ofFiles fun p =>
    if p = "1.txt" then
      some ("0123456789012345678901234567890123456789012345678901234567890123456789" ++
        "012345678901234567890123456789012345678901234567890123456789\nlast line\n")
    else none
/-! ## Theorems -/

/- The examples evaluate the code on whole files, which takes deep recursion. -/
set_option maxRecDepth 100000

/-! ### Strings -/

theorem length_eq_data_length (x : String) : x.length = x.data.length := rfl

theorem findsAtStart_append (p x : String) : findsAtStart (p ++ x) p = true := by
  simp [findsAtStart, List.isPrefixOf_iff_prefix]

theorem substr_append (p x : String) : substr (p ++ x) p.length = x := by
  apply String.ext
  rw [length_eq_data_length]
  simp [substr]

theorem substrTo_append (x y : String) : substrTo (x ++ y) x.length = x := by
  apply String.ext
  rw [length_eq_data_length]
  simp [substrTo]

theorem length_eq_zero_iff (x : String) : x.length = 0 ↔ x = "" := by
  rw [length_eq_data_length]
  constructor
  · intro h
    apply String.ext
    exact List.length_eq_zero.1 h
  · rintro rfl
    rfl

/-! ### The diff builder -/

theorem breaks_cons_cons (type : ElementType) (a b : Line) (rest : List Line) :
    breaks type (a :: b :: rest) =
      (if extendsRun type a b then 0 else 1) + breaks type (b :: rest) := rfl

theorem breaks_of_chain (type : ElementType) :
    ∀ l : List Line, l.Chain' (extendsRun type) → breaks type l = 0
  | [], _ => rfl
  | [_], _ => rfl
  | a :: b :: rest, h => by
    rw [List.chain'_cons] at h
    simp [breaks, h.1, breaks_of_chain type (b :: rest) h.2]

theorem breaks_append_le (type : ElementType) :
    ∀ p q : List Line, breaks type (p ++ q) ≤ breaks type p + breaks type q + 1
  | [], q => by simp [breaks]
  | [a], [] => by simp [breaks]
  | [a], b :: q => by
    simp only [List.singleton_append, breaks]
    split <;> omega
  | a :: b :: rest, q => by
    have ih := breaks_append_le type (b :: rest) q
    rw [List.cons_append, List.cons_append, breaks_cons_cons, breaks_cons_cons]
    rw [List.cons_append] at ih
    omega

theorem breaks_append_broken (type : ElementType) :
    ∀ p q : List Line, boundaryBroken type p q → p ≠ [] → q ≠ [] →
      breaks type (p ++ q) = breaks type p + breaks type q + 1
  | [], _, _, hp, _ => absurd rfl hp
  | [a], [], _, _, hq => absurd rfl hq
  | [a], b :: q, h, _, _ => by
    have hab : ¬ extendsRun type a b := h a (by simp) b (by simp)
    simp [breaks, hab]
    omega
  | a :: b :: rest, q, h, _, hq => by
    have h2 : boundaryBroken type (b :: rest) q := by
      intro x hx y hy
      exact h x (by simpa [List.getLast?_cons_cons] using hx) y hy
    have ih := breaks_append_broken type (b :: rest) q h2 (by simp) hq
    rw [List.cons_append, List.cons_append, breaks_cons_cons, breaks_cons_cons]
    rw [List.cons_append] at ih
    omega

/-- Any partition into runs has more elements than the observations have breaks. -/
theorem breaks_lt_length_of_partition (type : ElementType) :
    ∀ (ps : List (List Line)) (obs : List Line), IsRunPartition type obs ps → ps ≠ [] →
      breaks type obs + 1 ≤ ps.length
  | [], _, _, h => absurd rfl h
  | [p], obs, ⟨hflat, _, hin⟩, _ => by
    have hp : p = obs := by simpa using hflat
    have := breaks_of_chain type p (hin p (by simp))
    simp [← hp, this]
  | p :: q :: ps, obs, ⟨hflat, hne, hin⟩, _ => by
    have ih := breaks_lt_length_of_partition type (q :: ps) (q :: ps).flatten
      ⟨rfl, fun e he => hne e (List.mem_cons_of_mem _ he),
        fun e he => hin e (List.mem_cons_of_mem _ he)⟩ (by simp)
    have hp := breaks_of_chain type p (hin p (by simp))
    have hle := breaks_append_le type p (q :: ps).flatten
    have hobs : obs = p ++ (q :: ps).flatten := by rw [← hflat]; simp
    rw [hobs]
    simp only [List.length_cons] at ih ⊢
    omega

/-- A partition into runs whose neighbouring elements all break the contiguity rule has
exactly one element more than the observations have breaks. -/
theorem length_of_broken_partition (type : ElementType) :
    ∀ (ps : List (List Line)) (obs : List Line), IsRunPartition type obs ps →
      ps.Chain' (boundaryBroken type) → ps ≠ [] → ps.length = breaks type obs + 1
  | [], _, _, _, h => absurd rfl h
  | [p], obs, ⟨hflat, _, hin⟩, _, _ => by
    have hp : p = obs := by simpa using hflat
    have := breaks_of_chain type p (hin p (by simp))
    simp [← hp, this]
  | p :: q :: ps, obs, ⟨hflat, hne, hin⟩, hch, _ => by
    rw [List.chain'_cons] at hch
    have ih := length_of_broken_partition type (q :: ps) (q :: ps).flatten
      ⟨rfl, fun e he => hne e (List.mem_cons_of_mem _ he),
        fun e he => hin e (List.mem_cons_of_mem _ he)⟩ hch.2 (by simp)
    have hp := breaks_of_chain type p (hin p (by simp))
    have hq : q ≠ [] := hne q (by simp)
    have hpne : p ≠ [] := hne p (by simp)
    have hb : boundaryBroken type p (q :: ps).flatten := by
      intro a ha b hb
      refine hch.1 a ha b ?_
      cases q with
      | nil => exact absurd rfl hq
      | cons x xs => simpa using hb
    have hfl : (q :: ps).flatten ≠ [] := by
      cases q with
      | nil => exact absurd rfl hq
      | cons x xs => simp
    have heq := breaks_append_broken type p (q :: ps).flatten hb hpne hfl
    have hobs : obs = p ++ (q :: ps).flatten := by rw [← hflat]; simp
    rw [hobs]
    simp only [List.length_cons] at ih ⊢
    omega

/-- A run partition with broken boundaries has the fewest elements of all run partitions
of the same observations. -/
theorem broken_partition_minimal (type : ElementType) (obs : List Line)
    (es ps : List (List Line)) (hes : IsRunPartition type obs es)
    (hch : es.Chain' (boundaryBroken type)) (hps : IsRunPartition type obs ps) :
    es.length ≤ ps.length := by
  by_cases he : es = []
  · simp [he]
  · have hobs : obs ≠ [] := by
      intro h0
      cases es with
      | nil => exact he rfl
      | cons e es' =>
        have h1 := hes.1
        rw [h0] at h1
        have : e = [] := by
          simp only [List.flatten_cons, List.append_eq_nil] at h1
          exact h1.1
        exact hes.2.1 e (by simp) this
    have hp : ps ≠ [] := by
      intro h0
      have h1 := hps.1
      rw [h0] at h1
      exact hobs (by simpa using h1.symm)
    have h1 := length_of_broken_partition type es obs hes hch he
    have h2 := breaks_lt_length_of_partition type ps obs hps hp
    omega

theorem runInv_start (type : ElementType) (n0 : Nat) : RunInv type [] ⟨[], n0, []⟩ where
  flat := by simp
  kind := by simp
  nonempty := by simp
  inside := by simp
  pending := by simp
  last := by simp
  bounds := by simp
  start := by simp

/-- One call of `registerNewLine` keeps the invariant, for the observations extended by
the new line. -/
theorem runInv_step (type : ElementType) (obs : List Line) (st : RunState) (l : Line)
    (h : RunInv type obs st) : RunInv type (obs ++ [l]) (registerNewLine st l type) := by
  unfold registerNewLine
  by_cases hc : st.lines.length ≠ 0 ∧ l.number ≠ expectedNumber type st.lastNum
  · -- the pending run is sealed and a fresh one starts
    have hne : st.lines ≠ [] := fun h0 => hc.1 (by simp [h0])
    simp only [hc, and_self, if_true, ne_eq, not_false_eq_true]
    refine ⟨?_, ?_, ?_, ?_, ?_, ?_, ?_, ?_⟩
    · simp [← h.flat]
    · intro e he
      rcases List.mem_append.1 he with he | he
      · exact h.kind e he
      · simp at he; simp [he]
    · intro e he
      rcases List.mem_append.1 he with he | he
      · exact h.nonempty e he
      · simp at he; simp [he, hne]
    · intro e he
      rcases List.mem_append.1 he with he | he
      · exact h.inside e he
      · simp at he; simp [he, h.pending]
    · simp
    · simp
    · simp only [List.map_append, List.map_cons, List.map_nil, List.nil_append]
      rw [List.chain'_append]
      refine ⟨h.bounds, by simp, ?_⟩
      intro x hx y hy
      simp only [List.getLast?_append, List.getLast?_singleton, Option.or,
        Option.mem_def, Option.some.injEq] at hx
      simp only [List.head?_cons, Option.mem_def, Option.some.injEq] at hy
      subst hx; subst hy
      intro a ha b hb
      simp only [List.nil_append, List.head?_cons, Option.mem_def, Option.some.injEq] at hb
      subst hb
      have := h.last a ha
      unfold extendsRun
      rw [← this]
      exact hc.2
    · simp
  · -- the new line extends the pending run (or starts the first one)
    simp only [hc, if_false]
    by_cases hl : st.lines = []
    · have he := h.start hl
      have hobs : obs = [] := by rw [← h.flat]; simp [hl, he]
      refine ⟨?_, ?_, ?_, ?_, ?_, ?_, ?_, ?_⟩ <;> simp [hl, he, hobs]
    · have hnum : l.number = expectedNumber type st.lastNum := by
        by_contra hcon
        exact hc ⟨by simpa [List.length_eq_zero] using hl, hcon⟩
      refine ⟨?_, h.kind, h.nonempty, h.inside, ?_, ?_, ?_, ?_⟩
      · simp [← h.flat]
      · show (st.lines ++ [l]).Chain' (extendsRun type)
        rw [List.chain'_append]
        refine ⟨h.pending, by simp, ?_⟩
        intro a ha b hb
        simp only [List.head?_cons, Option.mem_def, Option.some.injEq] at hb
        subst hb
        unfold extendsRun
        rw [← h.last a ha]
        exact hnum
      · simp
      · show (st.elements.map DiffElement.lines ++ [st.lines ++ [l]]).Chain'
          (boundaryBroken type)
        have hb := h.bounds
        rw [List.chain'_append] at hb ⊢
        refine ⟨hb.1, by simp, ?_⟩
        intro x hx y hy
        simp only [List.head?_cons, Option.mem_def, Option.some.injEq] at hy
        subst hy
        have := hb.2.2 x hx st.lines (by simp)
        intro a ha b hb2
        refine this a ha b ?_
        cases hst : st.lines with
        | nil => exact absurd hst hl
        | cons c cs => simpa [hst] using hb2
      · simp

/-- The invariant holds after any sequence of observations registered on empty vectors. -/
theorem runInv_registerLines (type : ElementType) (n0 : Nat) (obs : List Line) :
    RunInv type obs (registerLines type ⟨[], n0, []⟩ obs) := by
  induction obs using List.reverseRecOn with
  | nil => exact runInv_start type n0
  | append_singleton obs l ih =>
    have : registerLines type ⟨[], n0, []⟩ (obs ++ [l]) =
        registerNewLine (registerLines type ⟨[], n0, []⟩ obs) l type := by
      simp [registerLines, List.foldl_append]
    rw [this]
    exact runInv_step type obs _ l ih

/-- Sealing the pending run, as `build` does, turns the invariant into the partition
into maximal runs. -/
theorem sealed_isMaximalRuns (type : ElementType) (obs : List Line) (st : RunState)
    (h : RunInv type obs st) :
    IsMaximalRuns type obs (addFinalElementAndClear st.lines st.elements type).2 := by
  have key : ∀ es : List DiffElement, IsRunPartition type obs (es.map DiffElement.lines) →
      (∀ e ∈ es, e.type = type) →
      (es.map DiffElement.lines).Chain' (boundaryBroken type) → IsMaximalRuns type obs es := by
    intro es h1 h2 h3
    refine ⟨h1, h2, h3, ?_⟩
    intro ps hps
    have := broken_partition_minimal type obs _ ps h1 h3 hps
    simpa using this
  unfold addFinalElementAndClear
  by_cases hl : st.lines = []
  · have he := h.start hl
    have hobs : obs = [] := by rw [← h.flat]; simp [hl, he]
    simp only [hl, List.length_nil, ne_eq, not_true_eq_false, if_false, he]
    apply key <;> simp [IsRunPartition, hobs]
  · have hlen : st.lines.length ≠ 0 := by simpa [List.length_eq_zero] using hl
    simp only [hlen, ne_eq, not_false_eq_true, if_true]
    apply key
    · refine ⟨by simp [← h.flat], ?_, ?_⟩
      · intro e he
        simp only [List.map_append, List.map_cons, List.map_nil, List.mem_append,
          List.mem_map, List.mem_singleton] at he
        rcases he with ⟨d, hd, rfl⟩ | rfl
        · exact h.nonempty d hd
        · exact hl
      · intro e he
        simp only [List.map_append, List.map_cons, List.map_nil, List.mem_append,
          List.mem_map, List.mem_singleton] at he
        rcases he with ⟨d, hd, rfl⟩ | rfl
        · exact h.inside d hd
        · exact h.pending
    · intro e he
      rcases List.mem_append.1 he with he | he
      · exact h.kind e he
      · simp at he; simp [he]
    · simpa using h.bounds

/-- Calls of the other kind leave the deletion half of a builder alone. -/
theorem calls_delState (cs : List DiffCall) : ∀ b : DiffBuilder,
    (b.calls cs).delState =
      registerLines ElementType.DELETION b.delState (deletedObservations cs) := by
  induction cs with
  | nil => intro b; rfl
  | cons c cs ih =>
    intro b
    cases c with
    | deleted i t =>
      have := ih (b.registerDeletedLine i t)
      simpa [DiffBuilder.calls, DiffBuilder.call, deletedObservations, registerLines,
        DiffBuilder.registerDeletedLine, DiffBuilder.delState] using this
    | inserted i t =>
      have := ih (b.registerInsertedLine i t)
      simpa [DiffBuilder.calls, DiffBuilder.call, deletedObservations, registerLines,
        DiffBuilder.registerInsertedLine, DiffBuilder.delState] using this

/-- Calls of the other kind leave the insertion half of a builder alone. -/
theorem calls_insState (cs : List DiffCall) : ∀ b : DiffBuilder,
    (b.calls cs).insState =
      registerLines ElementType.INSERTION b.insState (insertedObservations cs) := by
  induction cs with
  | nil => intro b; rfl
  | cons c cs ih =>
    intro b
    cases c with
    | deleted i t =>
      have := ih (b.registerDeletedLine i t)
      simpa [DiffBuilder.calls, DiffBuilder.call, insertedObservations, registerLines,
        DiffBuilder.registerDeletedLine, DiffBuilder.insState] using this
    | inserted i t =>
      have := ih (b.registerInsertedLine i t)
      simpa [DiffBuilder.calls, DiffBuilder.call, insertedObservations, registerLines,
        DiffBuilder.registerInsertedLine, DiffBuilder.insState] using this

/-- What `build` returns after any calls on a builder whose four vectors are empty. -/
theorem build_of_empty_vectors (lastDel lastIns : Nat) (cs : List DiffCall) :
    IsMaximalRuns ElementType.DELETION (deletedObservations cs)
      ((DiffBuilder.calls ⟨[], [], lastDel, lastIns, [], []⟩ cs).build.1.deletions) ∧
    IsMaximalRuns ElementType.INSERTION (insertedObservations cs)
      ((DiffBuilder.calls ⟨[], [], lastDel, lastIns, [], []⟩ cs).build.1.insertions) := by
  constructor
  · have h := sealed_isMaximalRuns _ _ _
      (runInv_registerLines ElementType.DELETION lastDel (deletedObservations cs))
    have e := calls_delState cs ⟨[], [], lastDel, lastIns, [], []⟩
    simp only [DiffBuilder.delState] at e
    rw [← e] at h
    exact h
  · have h := sealed_isMaximalRuns _ _ _
      (runInv_registerLines ElementType.INSERTION lastIns (insertedObservations cs))
    have e := calls_insState cs ⟨[], [], lastDel, lastIns, [], []⟩
    simp only [DiffBuilder.insState] at e
    rw [← e] at h
    exact h

/-- After `build`, the four vectors of the builder are empty again. -/
theorem build_resets (b : DiffBuilder) :
    b.build.2 = ⟨[], [], b.numberOfLastDeletedLine, b.numberOfLastInsertedLine, [], []⟩ := by
  unfold DiffBuilder.build addFinalElementAndClear
  by_cases h1 : b.deletedLines = [] <;> by_cases h2 : b.insertedLines = [] <;>
    simp [h1, h2]

/-- C1. Whatever calls `cs` of `registerDeletedLine` / `registerInsertedLine` are made on a
builder that is freshly constructed (with any values in its two uninitialised counters) or
that has just returned from a `build()` of any builder `b0`, the `FileDiff` of the next
`build()` holds, separately for deletions and for insertions, the partition of the
observations of that kind into maximal runs (`IsMaximalRuns`): the elements concatenate to
the observations in call order, none is empty, inside an element every line extends its
predecessor, every element after the first starts with a line that does not extend the last
line of the element before, and no run partition has fewer elements. A line extends its
predecessor when its number is the predecessor's number + 1 for deletions (computed in
`unsigned int`, so modulo 2^32: plain + 1 whenever that does not overflow) and the
predecessor's number itself for insertions. With nothing registered the `FileDiff` is
empty, and insertions at 5, 5, 9 give the two insertion elements [5, 5] and [9]. -/
theorem build_gives_maximal_runs (b0 : DiffBuilder) (lastDel lastIns : Nat)
    (cs : List DiffCall) (t1 t2 t3 : String) :
    (IsMaximalRuns ElementType.DELETION (deletedObservations cs)
        (((DiffBuilder.fresh lastDel lastIns).calls cs).build.1.deletions) ∧
      IsMaximalRuns ElementType.INSERTION (insertedObservations cs)
        (((DiffBuilder.fresh lastDel lastIns).calls cs).build.1.insertions)) ∧
    (IsMaximalRuns ElementType.DELETION (deletedObservations cs)
        ((b0.build.2.calls cs).build.1.deletions) ∧
      IsMaximalRuns ElementType.INSERTION (insertedObservations cs)
        ((b0.build.2.calls cs).build.1.insertions)) ∧
    (∀ a b : Line, extendsRun ElementType.DELETION a b ↔
        b.number = (a.number + 1) % 4294967296) ∧
    (∀ a b : Line, a.number + 1 < 4294967296 →
        (extendsRun ElementType.DELETION a b ↔ b.number = a.number + 1)) ∧
    (∀ a b : Line, extendsRun ElementType.INSERTION a b ↔ b.number = a.number) ∧
    (DiffBuilder.fresh lastDel lastIns).build.1 = ⟨[], []⟩ ∧
    b0.build.2.build.1 = ⟨[], []⟩ ∧
    ((DiffBuilder.fresh lastDel lastIns).calls
        [DiffCall.inserted 5 t1, DiffCall.inserted 5 t2, DiffCall.inserted 9 t3]).build.1 =
      ⟨[⟨ElementType.INSERTION, [⟨5, t1⟩, ⟨5, t2⟩]⟩, ⟨ElementType.INSERTION, [⟨9, t3⟩]⟩],
        []⟩ := by
  refine ⟨build_of_empty_vectors lastDel lastIns cs, ?_, ?_, ?_, ?_, ?_, ?_, ?_⟩
  · rw [build_resets]
    exact build_of_empty_vectors _ _ cs
  · intro a b
    simp [extendsRun, expectedNumber, UINT_RANGE]
  · intro a b h
    simp [extendsRun, expectedNumber, UINT_RANGE, Nat.mod_eq_of_lt h]
  · intro a b
    simp [extendsRun, expectedNumber]
  · rfl
  · rw [build_resets]
    rfl
  · simp [DiffBuilder.fresh, DiffBuilder.calls, DiffBuilder.call,
      DiffBuilder.registerInsertedLine, DiffBuilder.insState, registerNewLine,
      expectedNumber, DiffBuilder.build, addFinalElementAndClear]

/-! ### Commit with nothing to commit -/

/-- When every file visited exists and has an empty diff against its snapshot, the loop of
`calculateRemovalsAndDiffs` leaves the two output vectors as they are. -/
theorem calculateRemovalsAndDiffsLoop_unchanged {E : Extern} (s : OperationAccumulator E)
    (d : E.Disk) (cur : E.Hash) (hcur : s.curCommit = some cur) :
    ∀ (files : List String) (out : List String × List (String × FileDiff)),
      (∀ f ∈ files, E.fileExists d f = true) →
      (∀ f ∈ files, E.isEmptyDiff (E.calculateFileDiff d
        (E.appendPath (E.appendPath COMMIT_DIR (E.hashToString cur)) f) f) = true) →
      calculateRemovalsAndDiffsLoop s d files out = some out
  | [], out, _, _ => rfl
  | f :: rest, (r, ds), hex, hem => by
    have h1 := hex f (by simp)
    have h2 := hem f (by simp)
    simp only [calculateRemovalsAndDiffsLoop, h1, if_true, hcur, h2, Bool.not_true]
    exact calculateRemovalsAndDiffsLoop_unchanged s d cur hcur rest (r, ds)
      (fun g hg => hex g (List.mem_cons_of_mem _ hg))
      (fun g hg => hem g (List.mem_cons_of_mem _ hg))

/-- What the code checks before it commits. Where (a) `addFlag` is false or no pending-add
file exists on disk, (b) every tracked file exists on disk and every tracked file has an
empty diff against the file of its name under the directory of the current commit,
`commit` returns false and leaves the accumulator and the world exactly as they were: no
member changes, the static state of `CommitHash` is the same (no hash allocated), and the
disk is the same (no record written). -/
theorem commit_nothing_to_commit {E : Extern} (s : OperationAccumulator E) (w : World E)
    (commitMessage : String) (addFlag : Bool)
    (hadd : addFlag = false ∨ ∀ f ∈ s.addedFiles, E.fileExists w.disk f = false)
    (hexists : ∀ f ∈ s.trackedFiles, E.fileExists w.disk f = true)
    (hsame : ∀ f ∈ s.trackedFiles, ∃ cur, s.curCommit = some cur ∧
      E.isEmptyDiff (E.calculateFileDiff w.disk
        (E.appendPath (E.appendPath COMMIT_DIR (E.hashToString cur)) f) f) = true) :
    commit s w commitMessage addFlag = some (false, s, w) := by
  have hverified : (if addFlag then getAddedFiles s w.disk else []) = [] := by
    rcases hadd with h | h
    · simp [h]
    · have : getAddedFiles s w.disk = [] := by
        unfold getAddedFiles
        rw [List.filter_eq_nil_iff]
        intro f hf
        simp [h f hf]
      simp [this]
  have hcalc : calculateRemovalsAndDiffs s w.disk = some ([], []) := by
    unfold calculateRemovalsAndDiffs
    cases htf : s.trackedFiles with
    | nil => rfl
    | cons f rest =>
      obtain ⟨cur, hcur, -⟩ := hsame f (by simp [htf])
      rw [← htf]
      apply calculateRemovalsAndDiffsLoop_unchanged s w.disk cur hcur _ _ hexists
      intro g hg
      obtain ⟨cur2, hcur2, hd⟩ := hsame g hg
      rw [hcur] at hcur2
      cases hcur2
      exact hd
  unfold commit
  simp only [hverified, hcalc]
  rfl

/-- C2 fails on the code. After `initializeProject("proj")`, `addFile("a.txt")`, a first
commit (hash 1), `addFile("b.txt")` and a second commit (hash 2), both files are tracked,
nothing is pending, both files exist and each is equal to its last committed snapshot
(`a.txt` to the one under commit 1, `b.txt` to the one under commit 2), so its diff against
that snapshot is empty. The code looks `a.txt` up under the current commit 2, where nothing
was stored for it, and a third commit returns true: it allocates hash 3, writes the record
of commit 3 with one diff, and moves `curCommit` to it. -/
theorem commit_without_change_commits :
    ∃ (s : OperationAccumulator plainExtern) (w : World plainExtern),
      afterSecondAdd = some (true, s, w) ∧
      s.trackedFiles = ["a.txt", "b.txt"] ∧ s.addedFiles = [] ∧
      s.curCommit = some (2 : Nat) ∧ w.counter = (2 : Nat) ∧
      (∀ f ∈ s.trackedFiles, plainExtern.fileExists w.disk f = true) ∧
      plainExtern.isEmptyDiff
        (plainExtern.calculateFileDiff w.disk ".kil/.commits/1/a.txt" "a.txt") = true ∧
      plainExtern.isEmptyDiff
        (plainExtern.calculateFileDiff w.disk ".kil/.commits/2/b.txt" "b.txt") = true ∧
      w.disk.files ".kil/.commits/1/a.txt" = some "hello\n" ∧
      w.disk.files ".kil/.commits/2/a.txt" = none ∧
      ∃ (s' : OperationAccumulator plainExtern) (w' : World plainExtern),
        commit s w "third" true = some (true, s', w') ∧
        s'.curCommit = some (3 : Nat) ∧ w'.counter = (3 : Nat) ∧
        w'.disk.files ".kil/.commits/3/3.txt" =
          some ("commitHash=3\ncommitMessage=\"third\"\nbranch=Master\nparentCommit=2\n" ++
            "childCommits=[]\naddedFiles [0]\nremovedFiles [0]\ndiffs [1]\n") :=
  ⟨_, _, rfl, rfl, rfl, rfl, rfl, by decide, rfl, rfl, rfl, rfl, _, _, rfl, rfl, rfl, rfl⟩
/-! ### Branch creation -/

theorem filesHaveBeenAdded_iff {E : Extern} (s : OperationAccumulator E) (d : E.Disk) :
    filesHaveBeenAdded s d = true ↔ ∃ f ∈ s.addedFiles, E.fileExists d f = true := by
  simp [filesHaveBeenAdded, List.any_eq_true]

theorem filesHaveBeenRemovedOrModifiedLoop_eq {E : Extern} (s : OperationAccumulator E)
    (d : E.Disk) (cur : E.Hash) (hcur : s.curCommit = some cur) :
    ∀ files : List String, filesHaveBeenRemovedOrModifiedLoop s d files =
      some (files.any fun f =>
        !E.fileExists d f || !E.compareFiles d (snapshotPath E cur f) f)
  | [] => rfl
  | f :: rest => by
    have ih := filesHaveBeenRemovedOrModifiedLoop_eq s d cur hcur rest
    simp only [filesHaveBeenRemovedOrModifiedLoop, hcur, List.any_cons]
    by_cases h1 : E.fileExists d f = true
    · by_cases h2 : E.compareFiles d
          (E.appendPath (E.appendPath COMMIT_DIR (E.hashToString cur)) f) f = true
      · simp [h1, h2, ih, snapshotPath]
      · simp only [Bool.not_eq_true] at h2
        simp [h1, h2, snapshotPath]
    · simp only [Bool.not_eq_true] at h1
      simp [h1]

/-- Where the dereferences of `curCommit` are safe, `cleanState` returns, and it returns
true exactly when the working tree is not dirty. -/
theorem cleanState_eq {E : Extern} (s : OperationAccumulator E) (d : E.Disk)
    (h : CommitKnown s) :
    (Dirty s d → cleanState s d = some false) ∧ (¬ Dirty s d → cleanState s d = some true) := by
  unfold cleanState
  by_cases ha : filesHaveBeenAdded s d = true
  · have hd : Dirty s d := Or.inl ((filesHaveBeenAdded_iff s d).1 ha)
    simp [ha, hd]
  · have hna : ¬ ∃ f ∈ s.addedFiles, E.fileExists d f = true :=
      fun hx => ha ((filesHaveBeenAdded_iff s d).2 hx)
    simp only [ha, if_false]
    rcases h with h | ⟨cur, hcur⟩
    · have hd : ¬ Dirty s d := by
        rintro (hx | ⟨f, hf, -⟩)
        · exact hna hx
        · simp [h] at hf
      simp [filesHaveBeenRemovedOrModified, h, filesHaveBeenRemovedOrModifiedLoop, hd]
    · rw [filesHaveBeenRemovedOrModified, filesHaveBeenRemovedOrModifiedLoop_eq s d cur hcur]
      by_cases hany : (s.trackedFiles.any fun f =>
          !E.fileExists d f || !E.compareFiles d (snapshotPath E cur f) f) = true
      · have hd : Dirty s d := by
          obtain ⟨f, hf, hp⟩ := List.any_eq_true.1 hany
          refine Or.inr ⟨f, hf, ?_⟩
          simp only [Bool.or_eq_true, Bool.not_eq_true'] at hp
          rcases hp with hp | hp
          · exact Or.inl hp
          · exact Or.inr ⟨cur, hcur, hp⟩
        simp [hany, hd]
      · have hd : ¬ Dirty s d := by
          rintro (hx | ⟨f, hf, hp⟩)
          · exact hna hx
          · apply hany
            refine List.any_eq_true.2 ⟨f, hf, ?_⟩
            simp only [Bool.or_eq_true, Bool.not_eq_true']
            rcases hp with hp | ⟨c, hc, hp⟩
            · exact Or.inl hp
            · rw [hcur] at hc
              cases hc
              exact Or.inr hp
        simp only [Bool.not_eq_true] at hany
        simp [hany, hd]

theorem mem_setInsert (x y : String) : ∀ bs : List String,
    y ∈ setInsert x bs ↔ y = x ∨ y ∈ bs
  | [] => by simp [setInsert]
  | b :: bs => by
    unfold setInsert
    by_cases h1 : x.data < b.data
    · simp [h1]
    · by_cases h2 : x = b
      · subst h2
        simp [h1]
      · simp only [h1, h2, if_false, List.mem_cons, mem_setInsert x y bs]
        tauto

/-- C3. Where the dereferences of `curCommit` are safe (there is a current commit or no
tracked file), `createNewBranch(name)` fails exactly when the working tree is dirty, and
failure changes nothing: if some pending-add file exists on disk, or some tracked file is
missing from disk or differs from its snapshot under the current commit, the call prints
its refusal and leaves every member (`curBranch`, `branches`, `tree` among them) as it was;
in every other state it prints nothing, and afterwards `curBranch` is `name`, the tree is
the old tree after `registerNewBranch(name)`, and the branch set is the old set plus
`name`. -/
theorem createNewBranch_fails_iff_dirty {E : Extern} (s : OperationAccumulator E)
    (w : World E) (name : String) (h : CommitKnown s) :
    (Dirty s w.disk → createNewBranch s w name = some (s, w.print commitBeforeNewBranch)) ∧
    (¬ Dirty s w.disk → createNewBranch s w name =
      some ({ s with curBranch := name, tree := E.registerNewBranch s.tree name,
                     branches := setInsert name s.branches }, w)) ∧
    (∀ x, x ∈ setInsert name s.branches ↔ x = name ∨ x ∈ s.branches) := by
  have hc := cleanState_eq s w.disk h
  refine ⟨fun hd => ?_, fun hd => ?_, fun x => mem_setInsert name x s.branches⟩
  · simp [createNewBranch, hc.1 hd]
  · simp [createNewBranch, hc.2 hd]

/-- Scenario D: with `a.txt` modified since the first commit, `createNewBranch("feature")`
is refused and changes no member; with `a.txt` unmodified it switches to the new branch. -/
theorem createNewBranch_fails_iff_dirty_witness :
    createNewBranch committedOnce (plainWorld modifiedDisk) "feature" =
      some (committedOnce, (plainWorld modifiedDisk).print commitBeforeNewBranch) ∧
    createNewBranch committedOnce (plainWorld cleanDisk) "feature" =
      some ({ committedOnce with
                curBranch := "feature",
                tree := ["Master:", "commit 1", "feature:"],
                branches := ["Master", "feature"] }, plainWorld cleanDisk) := by
  have hk : CommitKnown committedOnce := Or.inr ⟨(1 : Nat), rfl⟩
  refine ⟨(createNewBranch_fails_iff_dirty committedOnce (plainWorld modifiedDisk) "feature"
      hk).1 ?_, ?_⟩
  · exact Or.inr ⟨"a.txt", by decide, Or.inr ⟨(1 : Nat), rfl, by decide⟩⟩
  · have := (createNewBranch_fails_iff_dirty committedOnce (plainWorld cleanDisk) "feature"
      hk).2.1 ?_
    · rw [this]; rfl
    · rintro (⟨f, hf, -⟩ | ⟨f, hf, hp⟩)
      · simp [committedOnce] at hf
      · have hf2 : f = "a.txt" := by simpa [committedOnce] using hf
        subst hf2
        rcases hp with hp | ⟨c, hc, hp⟩
        · revert hp; decide
        · have hc2 : c = (1 : Nat) := by
            have : some (1 : Nat) = some c := hc
            exact (Option.some.inj this).symm
          subst hc2
          revert hp; decide

/-! ### What a successful commit does -/

theorem removeDeletedFilesFromLists_fields {E : Extern} (removedFiles : List String) :
    ∀ s : OperationAccumulator E,
      (removeDeletedFilesFromLists s removedFiles).projectInit = s.projectInit ∧
      (removeDeletedFilesFromLists s removedFiles).initialCommitPerformed =
        s.initialCommitPerformed ∧
      (removeDeletedFilesFromLists s removedFiles).curCommit = s.curCommit ∧
      (removeDeletedFilesFromLists s removedFiles).projectName = s.projectName ∧
      (removeDeletedFilesFromLists s removedFiles).curBranch = s.curBranch ∧
      (removeDeletedFilesFromLists s removedFiles).branches = s.branches ∧
      (removeDeletedFilesFromLists s removedFiles).tree = s.tree ∧
      (removeDeletedFilesFromLists s removedFiles).trackedFiles =
        removedFiles.foldl List.erase s.trackedFiles ∧
      (removeDeletedFilesFromLists s removedFiles).addedFiles =
        removedFiles.foldl List.erase s.addedFiles := by
  induction removedFiles with
  | nil => intro s; simp [removeDeletedFilesFromLists]
  | cons f rest ih =>
    intro s
    have := ih { s with trackedFiles := s.trackedFiles.erase f,
                        addedFiles := s.addedFiles.erase f }
    simpa [removeDeletedFilesFromLists] using this

/-- The accumulator a successful commit leaves, given the vectors the commit computed. -/
theorem commit_true_inv {E : Extern} (s s' : OperationAccumulator E) (w w' : World E)
    (commitMessage : String) (addFlag : Bool)
    (h : commit s w commitMessage addFlag = some (true, s', w')) :
    ∃ (removedFiles : List String) (diffs : List (String × FileDiff)) (s1 : OperationAccumulator E),
      calculateRemovalsAndDiffs s w.disk = some (removedFiles, diffs) ∧
      writeOutCommit s w commitMessage (if addFlag then getAddedFiles s w.disk else [])
        removedFiles diffs = some (s1, w') ∧
      s' = { (if addFlag then
                { s1 with trackedFiles := s1.trackedFiles ++ getAddedFiles s w.disk,
                          addedFiles := [] }
              else s1) with
             initialCommitPerformed := true,
             tree := E.addCommit s1.tree (E.newHash w.counter).1 } ∧
      s1 = { removeDeletedFilesFromLists s removedFiles with
             curCommit := some (E.newHash w.counter).1 } := by
  unfold commit at h
  cases hcalc : calculateRemovalsAndDiffs s w.disk with
  | none => simp [hcalc] at h
  | some rd =>
    obtain ⟨removedFiles, diffs⟩ := rd
    simp only [hcalc] at h
    by_cases hc : ((if addFlag then getAddedFiles s w.disk else []).length == 0 &&
        removedFiles.length == 0 && diffs.length == 0) = true
    · rw [if_pos hc] at h
      simp at h
    · rw [if_neg hc] at h
      cases hw : writeOutCommit s w commitMessage
          (if addFlag then getAddedFiles s w.disk else []) removedFiles diffs with
      | none => simp [hw] at h
      | some r =>
        obtain ⟨s1, w1⟩ := r
        have hs1 : s1 = { removeDeletedFilesFromLists s removedFiles with
            curCommit := some (E.newHash w.counter).1 } := by
          unfold writeOutCommit at hw
          simp only at hw
          split at hw
          · simp at hw
          · split at hw
            · split at hw
              · simp at hw
              · simp only [Option.some.injEq, Prod.mk.injEq] at hw
                exact hw.1.symm
            · simp only [Option.some.injEq, Prod.mk.injEq] at hw
              exact hw.1.symm
        simp only [hw] at h
        have hcur : s1.curCommit = some (E.newHash w.counter).1 := by rw [hs1]
        cases addFlag
        · simp only [Bool.false_eq_true, if_false, hcur, Option.some.injEq, Prod.mk.injEq,
            true_and] at h
          refine ⟨removedFiles, diffs, s1, rfl, ?_, ?_, hs1⟩
          · simp only [Bool.false_eq_true, if_false] at hw ⊢
            rw [hw, h.2]
          · simp only [Bool.false_eq_true, if_false, hcur]
            exact h.1.symm
        · simp only [if_true, hcur, Option.some.injEq, Prod.mk.injEq, true_and] at h
          refine ⟨removedFiles, diffs, s1, rfl, ?_, ?_, hs1⟩
          · simp only [if_true] at hw ⊢
            rw [hw, h.2]
          · simp only [if_true, hcur]
            exact h.1.symm

theorem putAll_append (E : Extern) (d : E.Disk) (path : String) (a b : List String) :
    putAll E d path (a ++ b) = putAll E (putAll E d path a) path b := by
  unfold putAll
  rw [List.foldl_append]

/-- The loop that gives the stream every file followed by a newline. -/
theorem foldl_putAll_files (E : Extern) (path : String) : ∀ (files : List String) (d : E.Disk),
    files.foldl (fun acc file => putAll E acc path [file, "\n"]) d =
      putAll E d path (files.flatMap (fun file => [file, "\n"]))
  | [], d => rfl
  | file :: rest, d => by
    rw [List.foldl_cons, foldl_putAll_files E path rest, List.flatMap_cons, putAll_append]

/-- The texts `writeBasicCommitInfo` gives to the stream it has opened. -/
theorem writeBasicCommitInfo_eq {E : Extern} (s : OperationAccumulator E) (d : E.Disk)
    (newCommitFileName : String) (hash : E.Hash) (commitMessage : String) :
    writeBasicCommitInfo s d newCommitFileName hash commitMessage =
      (if s.initialCommitPerformed then s.curCommit.map E.hashToString else some "ROOT").map
        fun parent =>
          putAll E (E.openStream d (newCommitFileName ++ ".txt")) (newCommitFileName ++ ".txt")
            (recordHeadTexts (E.hashToString hash) commitMessage s.curBranch parent) := by
  unfold writeBasicCommitInfo
  cases (if s.initialCommitPerformed then s.curCommit.map E.hashToString else some "ROOT") <;>
    rfl

/-- What a call of `writeOutCommit` that returns has written: the new record, and after it
the update of the parent's record when a commit had been performed before. -/
theorem writeOutCommit_inv {E : Extern} (s s1 : OperationAccumulator E) (w w' : World E)
    (commitMessage : String) (addedFiles removedFiles : List String)
    (diffs : List (String × FileDiff))
    (h : writeOutCommit s w commitMessage addedFiles removedFiles diffs = some (s1, w')) :
    ∃ parent : String,
      (s.initialCommitPerformed = false → parent = "ROOT") ∧
      (s.initialCommitPerformed = true →
        ∃ cur, s.curCommit = some cur ∧ parent = E.hashToString cur) ∧
      w'.counter = (E.newHash w.counter).2 ∧
      (s.initialCommitPerformed = false →
        w'.disk = recordClosed E
          (recordHeadSent s w.disk (E.newHash w.counter).1 commitMessage parent)
          (E.newHash w.counter).1 addedFiles removedFiles diffs) ∧
      (s.initialCommitPerformed = true →
        updateParentCommit (removeDeletedFilesFromLists s removedFiles)
          (recordClosed E
            (recordHeadSent s w.disk (E.newHash w.counter).1 commitMessage parent)
            (E.newHash w.counter).1 addedFiles removedFiles diffs)
          (E.newHash w.counter).1 = some w'.disk) := by
  have hf := removeDeletedFilesFromLists_fields removedFiles s
  unfold writeOutCommit at h
  simp only [writeBasicCommitInfo_eq] at h
  cases hp : (if s.initialCommitPerformed then s.curCommit.map E.hashToString
      else some "ROOT") with
  | none => simp [hp] at h
  | some parent =>
    simp only [hp, Option.map_some', hf.2.1] at h
    have hdisk : E.closeStream (E.flushStream (writeOutDiffs E
          (putAll E
            (List.foldl (fun acc removedFile =>
                putAll E acc
                  (E.appendPath (E.appendPath COMMIT_DIR (E.hashToString (E.newHash w.counter).1))
                    (E.hashToString (E.newHash w.counter).1) ++ ".txt") [removedFile, "\n"])
              (putAll E
                (writeOutAddedFiles E
                  (putAll E
                    (E.openStream
                      (createNewCommitDirectory s w.disk
                        (E.appendPath COMMIT_DIR (E.hashToString (E.newHash w.counter).1)))
                      (E.appendPath
                        (E.appendPath COMMIT_DIR (E.hashToString (E.newHash w.counter).1))
                        (E.hashToString (E.newHash w.counter).1) ++ ".txt"))
                    (E.appendPath
                      (E.appendPath COMMIT_DIR (E.hashToString (E.newHash w.counter).1))
                      (E.hashToString (E.newHash w.counter).1) ++ ".txt")
                    (recordHeadTexts (E.hashToString (E.newHash w.counter).1) commitMessage
                      s.curBranch parent))
                  (E.appendPath
                    (E.appendPath COMMIT_DIR (E.hashToString (E.newHash w.counter).1))
                    (E.hashToString (E.newHash w.counter).1) ++ ".txt")
                  addedFiles
                  (E.appendPath COMMIT_DIR (E.hashToString (E.newHash w.counter).1)))
                (E.appendPath
                  (E.appendPath COMMIT_DIR (E.hashToString (E.newHash w.counter).1))
                  (E.hashToString (E.newHash w.counter).1) ++ ".txt")
                ["removedFiles [", toString removedFiles.length, "]\n"])
              removedFiles)
            (E.appendPath
              (E.appendPath COMMIT_DIR (E.hashToString (E.newHash w.counter).1))
              (E.hashToString (E.newHash w.counter).1) ++ ".txt")
            ["diffs [", toString diffs.length, "]\n"])
          (E.appendPath COMMIT_DIR (E.hashToString (E.newHash w.counter).1)) diffs)
          (E.appendPath
            (E.appendPath COMMIT_DIR (E.hashToString (E.newHash w.counter).1))
            (E.hashToString (E.newHash w.counter).1) ++ ".txt"))
          (E.appendPath
            (E.appendPath COMMIT_DIR (E.hashToString (E.newHash w.counter).1))
            (E.hashToString (E.newHash w.counter).1) ++ ".txt") =
        recordClosed E
          (recordHeadSent s w.disk (E.newHash w.counter).1 commitMessage parent)
          (E.newHash w.counter).1 addedFiles removedFiles diffs := by
      unfold recordClosed recordHeadSent writeOutAddedFiles fileListTexts newCommitRecordPath
      simp only [foldl_putAll_files, putAll_append]
    rw [hdisk] at h
    have hpar : (s.initialCommitPerformed = false → parent = "ROOT") ∧
        (s.initialCommitPerformed = true →
          ∃ cur, s.curCommit = some cur ∧ parent = E.hashToString cur) := by
      constructor
      · intro hi
        simp only [hi, Bool.false_eq_true, if_false, Option.some.injEq] at hp
        exact hp.symm
      · intro hi
        simp only [hi, if_true] at hp
        cases hc : s.curCommit with
        | none => simp [hc] at hp
        | some cur =>
          simp only [hc, Option.map_some', Option.some.injEq] at hp
          exact ⟨cur, rfl, hp.symm⟩
    refine ⟨parent, hpar.1, hpar.2, ?_⟩
    by_cases hi : s.initialCommitPerformed = true
    · simp only [hi, if_true] at h
      cases hup : updateParentCommit (removeDeletedFilesFromLists s removedFiles)
          (recordClosed E
            (recordHeadSent s w.disk (E.newHash w.counter).1 commitMessage parent)
            (E.newHash w.counter).1 addedFiles removedFiles diffs)
          (E.newHash w.counter).1 with
      | none => simp [hup] at h
      | some d9 =>
        simp only [hup, Option.some.injEq, Prod.mk.injEq] at h
        rw [← h.2]
        refine ⟨rfl, ?_, ?_⟩
        · intro hx; rw [hi] at hx; cases hx
        · intro _; rfl
    · have hi2 : s.initialCommitPerformed = false := by simpa using hi
      simp only [hi2, Bool.false_eq_true, if_false, Option.some.injEq, Prod.mk.injEq] at h
      rw [← h.2]
      refine ⟨rfl, ?_, ?_⟩
      · intro _; rfl
      · intro hx; exact absurd hx hi
/-! ### The record of a new commit -/

/-- When an added file is named like the new record (`1.txt` for the first commit), its
snapshot is written to the record's path while the record's stream is open. The five lines
are still the first texts the stream is given; on `plainExtern`, whose stream holds them
until it is closed, the file then holds the record followed by what is left of the
snapshot. -/
theorem record_shares_path_with_snapshot :
    (commit (addFile (initializeProject (OperationAccumulator.new plainExtern) "proj")
        "1.txt").2 (plainWorld sharedNameDisk) "first" true).map
      (fun r => (r.1, r.2.2.disk.files ".kil/.commits/1/1.txt")) =
    some (true,
      some ("commitHash=1\ncommitMessage=\"first\"\nbranch=Master\nparentCommit=ROOT\n" ++
        "childCommits=[]\naddedFiles [1]\n1.txt\nremovedFiles [0]\ndiffs [0]\n" ++
        "last line\n")) :=
  rfl
/-! ### The update of the parent's record -/

/-- What `updateParentCommit` writes back for a record it accepts. -/
theorem updatedParentRecord_eq (fileContents : List String) (childHash children : String)
    (hlen : 8 ≤ fileContents.length)
    (hline : fileContents[4]? = some (CHILD_COMMITS_OPEN ++ children ++ "]")) :
    updatedParentRecord fileContents childHash =
      some (fileContents.set 4
        (if children = "" then CHILD_COMMITS_OPEN ++ childHash ++ "]"
         else CHILD_COMMITS_OPEN ++ children ++ "," ++ childHash ++ "]")) := by
  have hget : fileContents.getD 4 "" = CHILD_COMMITS_OPEN ++ children ++ "]" := by
    simp [hline]
  have h14 : CHILD_COMMITS_OPEN.length = 14 := by decide
  have hsub : substr (CHILD_COMMITS_OPEN ++ children ++ "]") 14 = children ++ "]" := by
    rw [String.append_assoc, ← h14]
    exact substr_append _ _
  have hlast : (CHILD_COMMITS_OPEN ++ children ++ "]").data.getLast? = some ']' := by
    simp [String.data_append]
  have hlen2 : (children ++ "]").length - 1 = children.length := by
    simp [String.length_append]
    rfl
  unfold updatedParentRecord
  simp only [ge_iff_le, hlen, not_true_eq_false, if_false, hget]
  rw [String.append_assoc, findsAtStart_append, ← String.append_assoc]
  simp only [not_true_eq_false, if_false, hlast, hsub, hlen2, substrTo_append]
  by_cases hc : children = ""
  · subst hc
    simp
  · have : ¬ children.length = 0 := fun h0 => hc ((length_eq_zero_iff children).1 h0)
    simp [hc, this]

/-- C6. A commit made when a previous commit exists rewrites the previous current commit's
record so that only its children list changes. (1) For every stored record with at least 8
lines whose line 4 is `childCommits=[` ++ L ++ `]`, the lines `updateParentCommit` writes
back are as many, equal to the stored ones at every index other than 4, and at index 4
`childCommits=[h]` when L is empty and `childCommits=[L,h]` otherwise. (2)
`updateParentCommit` reads the record of the current commit and writes those lines back to
the same path. (3) A call of `writeOutCommit` that returns has made this update, with the
new hash as `h` and after writing the new record (its stream is closed), when a commit had
been performed before, and has not made it (closing the new record's stream is its last
write) for the very first commit. -/
theorem updateParentCommit_appends_child {E : Extern} :
    (∀ (fileContents : List String) (childHash children : String),
      8 ≤ fileContents.length →
      fileContents[4]? = some ("childCommits=[" ++ children ++ "]") →
      ∃ out, updatedParentRecord fileContents childHash = some out ∧
        out.length = fileContents.length ∧
        (∀ i, i ≠ 4 → out[i]? = fileContents[i]?) ∧
        out[4]? = some (if children = "" then "childCommits=[" ++ childHash ++ "]"
          else "childCommits=[" ++ children ++ "," ++ childHash ++ "]")) ∧
    (∀ (s : OperationAccumulator E) (d : E.Disk) (child cur : E.Hash),
      s.curCommit = some cur →
      updateParentCommit s d child =
        (updatedParentRecord (E.readFile d (calculateFileLocationForHash E cur))
          (E.hashToString child)).map (E.writeFile d (calculateFileLocationForHash E cur))) ∧
    (∀ (s s1 : OperationAccumulator E) (w w' : World E) (commitMessage : String)
      (addedFiles removedFiles : List String) (diffs : List (String × FileDiff)),
      writeOutCommit s w commitMessage addedFiles removedFiles diffs = some (s1, w') →
      ∃ parent : String,
        (s.initialCommitPerformed = false →
          w'.disk = recordClosed E
            (recordHeadSent s w.disk (E.newHash w.counter).1 commitMessage parent)
            (E.newHash w.counter).1 addedFiles removedFiles diffs) ∧
        (s.initialCommitPerformed = true →
          ∃ cur out, s.curCommit = some cur ∧
            updatedParentRecord
              (E.readFile
                (recordClosed E
                  (recordHeadSent s w.disk (E.newHash w.counter).1 commitMessage parent)
                  (E.newHash w.counter).1 addedFiles removedFiles diffs)
                (calculateFileLocationForHash E cur))
              (E.hashToString (E.newHash w.counter).1) = some out ∧
            w'.disk = E.writeFile
              (recordClosed E
                (recordHeadSent s w.disk (E.newHash w.counter).1 commitMessage parent)
                (E.newHash w.counter).1 addedFiles removedFiles diffs)
              (calculateFileLocationForHash E cur) out)) := by
  refine ⟨?_, ?_, ?_⟩
  · intro fileContents childHash children hlen hline
    have h := updatedParentRecord_eq fileContents childHash children hlen hline
    refine ⟨_, h, by simp, ?_, ?_⟩
    · intro i hi
      exact List.getElem?_set_ne (Ne.symm hi)
    · rw [List.getElem?_set_self (by omega)]
      rfl
  · intro s d child cur hcur
    unfold updateParentCommit
    simp only [hcur]
    cases updatedParentRecord (E.readFile d (calculateFileLocationForHash E cur))
      (E.hashToString child) <;> rfl
  · intro s s1 w w' commitMessage addedFiles removedFiles diffs h
    obtain ⟨parent, -, -, -, hfirst, hlater⟩ := writeOutCommit_inv s s1 w w' _ _ _ _ h
    refine ⟨parent, hfirst, ?_⟩
    intro hi
    have hup := hlater hi
    have hf := removeDeletedFilesFromLists_fields (E := E) removedFiles s
    unfold updateParentCommit at hup
    rw [hf.2.2.1] at hup
    cases hc : s.curCommit with
    | none => simp [hc] at hup
    | some cur =>
      simp only [hc] at hup
      split at hup
      · simp at hup
      · rename_i out hout
        simp only [Option.some.injEq] at hup
        exact ⟨cur, out, rfl, hout, hup.symm⟩

/-- Scenario B: a second child is appended after the first, and after the second commit the
record of the first commit lists the second commit's hash among its children, the second
commit's record naming the first as its parent. -/
theorem updateParentCommit_appends_child_witness :
    (∃ out, updatedParentRecord recordWithOneChild "3" = some out ∧
      out.length = recordWithOneChild.length ∧
      (∀ i, i ≠ 4 → out[i]? = recordWithOneChild[i]?) ∧
      out[4]? = some (if "2" = "" then "childCommits=[" ++ "3" ++ "]"
        else "childCommits=[" ++ "2" ++ "," ++ "3" ++ "]")) ∧
    afterSecondCommit.map (fun r => (r.1, r.2.2.disk.files ".kil/.commits/1/1.txt")) =
      some (true, some ("commitHash=1\ncommitMessage=\"first\"\nbranch=Master\n" ++
        "parentCommit=ROOT\nchildCommits=[2]\naddedFiles [1]\na.txt\nremovedFiles [0]\n" ++
        "diffs [0]\n")) ∧
    afterSecondCommit.map (fun r => r.2.2.disk.files ".kil/.commits/2/2.txt") =
      some (some ("commitHash=2\ncommitMessage=\"second\"\nbranch=Master\n" ++
        "parentCommit=1\nchildCommits=[]\naddedFiles [0]\nremovedFiles [0]\ndiffs [1]\n")) :=
  ⟨(updateParentCommit_appends_child (E := plainExtern)).1 recordWithOneChild "3" "2"
      (by decide) (by decide),
    rfl, rfl⟩

/-! ### The lists after a successful commit -/

/-- The removed files `calculateRemovalsAndDiffs` reports are the tracked files that are
missing from disk, in tracked order. -/
theorem calculateRemovalsAndDiffsLoop_removed {E : Extern} (s : OperationAccumulator E)
    (d : E.Disk) :
    ∀ (files : List String) (out res : List String × List (String × FileDiff)),
      calculateRemovalsAndDiffsLoop s d files out = some res →
      res.1 = out.1 ++ files.filter (fun f => !E.fileExists d f)
  | [], out, res, h => by
    simp only [calculateRemovalsAndDiffsLoop, Option.some.injEq] at h
    simp [← h]
  | f :: rest, (r, ds), res, h => by
    unfold calculateRemovalsAndDiffsLoop at h
    by_cases hex : E.fileExists d f = true
    · simp only [hex, if_true] at h
      cases hc : s.curCommit with
      | none => simp [hc] at h
      | some cur =>
        simp only [hc] at h
        split at h
        · have := calculateRemovalsAndDiffsLoop_removed s d rest _ res h
          simpa [hex] using this
        · have := calculateRemovalsAndDiffsLoop_removed s d rest _ res h
          simpa [hex] using this
    · have hex2 : E.fileExists d f = false := by simpa using hex
      simp only [hex2, Bool.false_eq_true, if_false] at h
      have := calculateRemovalsAndDiffsLoop_removed s d rest _ res h
      simpa [hex2] using this

theorem foldl_erase_cons_of_not_mem (a : String) :
    ∀ (R t : List String), a ∉ R → R.foldl List.erase (a :: t) = a :: R.foldl List.erase t
  | [], _, _ => rfl
  | r :: R, t, h => by
    have hne : a ≠ r := fun e => h (by simp [e])
    have hR : a ∉ R := fun e => h (by simp [e])
    simp only [List.foldl_cons]
    rw [List.erase_cons_tail (by simpa using hne)]
    exact foldl_erase_cons_of_not_mem a R (t.erase r) hR

/-- Erasing from a list, one occurrence for each, the elements of it that satisfy `p`
leaves the elements that do not. -/
theorem foldl_erase_filter (p : String → Bool) :
    ∀ l : List String, (l.filter p).foldl List.erase l = l.filter (fun f => !p f)
  | [] => rfl
  | a :: t => by
    by_cases hp : p a = true
    · simp only [List.filter_cons, hp, if_true, List.foldl_cons, List.erase_cons_head,
        Bool.not_true, Bool.false_eq_true, if_false]
      exact foldl_erase_filter p t
    · have hp2 : p a = false := by simpa using hp
      have hna : a ∉ t.filter p := by
        intro hmem
        rw [List.mem_filter] at hmem
        exact hp hmem.2
      simp only [List.filter_cons, hp2, Bool.false_eq_true, if_false, Bool.not_false, if_true]
      rw [foldl_erase_cons_of_not_mem a _ t hna, foldl_erase_filter p t]

/-- C7. Whenever `commit(message, addFlag)` returns true, with R the tracked files missing
from disk (in tracked order) and V the pending-add files that exist on disk (in pending
order): the new `trackedFiles` is the old one with every file of R removed (these are the
tracked files that exist on disk), followed by V when `addFlag` is set and by nothing
otherwise; the new `addedFiles` is empty when `addFlag` is set, and otherwise the old
`addedFiles` with one occurrence erased for each file of R, which for a duplicate-free
`addedFiles` is the old list without the files of R; `initialCommitPerformed` is true;
`curCommit` is the newly allocated hash, the hash handed to the tree's `addCommit`; the
other members are unchanged. -/
theorem commit_updates_lists {E : Extern} (s s' : OperationAccumulator E) (w w' : World E)
    (commitMessage : String) (addFlag : Bool)
    (h : commit s w commitMessage addFlag = some (true, s', w')) :
    s'.trackedFiles =
      s.trackedFiles.filter (fun f => decide (f ∉ missingTracked s w.disk)) ++
        (if addFlag then presentAdded s w.disk else []) ∧
    s.trackedFiles.filter (fun f => decide (f ∉ missingTracked s w.disk)) =
      s.trackedFiles.filter (fun f => E.fileExists w.disk f) ∧
    s'.addedFiles = (if addFlag then [] else s.addedFiles.diff (missingTracked s w.disk)) ∧
    (s.addedFiles.Nodup → s'.addedFiles =
      if addFlag then []
      else s.addedFiles.filter (fun f => decide (f ∉ missingTracked s w.disk))) ∧
    s'.initialCommitPerformed = true ∧
    s'.curCommit = some (E.newHash w.counter).1 ∧
    s'.tree = E.addCommit s.tree (E.newHash w.counter).1 ∧
    w'.counter = (E.newHash w.counter).2 ∧
    s'.curBranch = s.curBranch ∧ s'.branches = s.branches ∧
    s'.projectName = s.projectName ∧ s'.projectInit = s.projectInit := by
  obtain ⟨removedFiles, diffs, s1, hcalc, hw, hs', hs1⟩ := commit_true_inv s s' w w' _ _ h
  obtain ⟨-, -, -, hcount, -, -⟩ := writeOutCommit_inv s s1 w w' _ _ _ _ hw
  have hf := removeDeletedFilesFromLists_fields (E := E) removedFiles s
  have hrem : removedFiles = missingTracked s w.disk := by
    have := calculateRemovalsAndDiffsLoop_removed s w.disk s.trackedFiles ([], []) _ hcalc
    simpa [missingTracked] using this
  have htracked : removedFiles.foldl List.erase s.trackedFiles =
      s.trackedFiles.filter (fun f => E.fileExists w.disk f) := by
    rw [hrem, missingTracked, foldl_erase_filter]
    simp
  have hfilter : s.trackedFiles.filter (fun f => decide (f ∉ missingTracked s w.disk)) =
      s.trackedFiles.filter (fun f => E.fileExists w.disk f) := by
    apply List.filter_congr
    intro f hf
    simp [missingTracked, List.mem_filter, hf]
  have hadded : removedFiles.foldl List.erase s.addedFiles =
      s.addedFiles.diff (missingTracked s w.disk) := by
    rw [hrem, List.diff_eq_foldl]
  have hs1t : s1.trackedFiles = s.trackedFiles.filter (fun f => E.fileExists w.disk f) := by
    rw [hs1]; show (removeDeletedFilesFromLists s removedFiles).trackedFiles = _
    rw [hf.2.2.2.2.2.2.2.1, htracked]
  have hs1a : s1.addedFiles = s.addedFiles.diff (missingTracked s w.disk) := by
    rw [hs1]; show (removeDeletedFilesFromLists s removedFiles).addedFiles = _
    rw [hf.2.2.2.2.2.2.2.2, hadded]
  have hs1tree : s1.tree = s.tree := by
    rw [hs1]; exact hf.2.2.2.2.2.2.1
  have hs1b : s1.curBranch = s.curBranch ∧ s1.branches = s.branches ∧
      s1.projectName = s.projectName ∧ s1.projectInit = s.projectInit := by
    rw [hs1]; exact ⟨hf.2.2.2.2.1, hf.2.2.2.2.2.1, hf.2.2.2.1, hf.1⟩
  have hs1c : s1.curCommit = some (E.newHash w.counter).1 := by rw [hs1]
  have haddedFiles : s'.addedFiles =
      (if addFlag then [] else s.addedFiles.diff (missingTracked s w.disk)) := by
    rw [hs']; cases addFlag
    · exact hs1a
    · rfl
  refine ⟨?_, hfilter, haddedFiles, ?_, ?_, ?_, ?_, hcount, ?_, ?_, ?_, ?_⟩
  · rw [hs', hfilter]; cases addFlag
    · simpa using hs1t
    · show s1.trackedFiles ++ getAddedFiles s w.disk = _
      rw [hs1t]; rfl
  · intro hnd
    rw [haddedFiles, hnd.diff_eq_filter]
  · rw [hs']
  · rw [hs']; cases addFlag <;> exact hs1c
  · rw [hs', hs1tree]
  · rw [hs']; cases addFlag <;> exact hs1b.1
  · rw [hs']; cases addFlag <;> exact hs1b.2.1
  · rw [hs']; cases addFlag <;> exact hs1b.2.2.1
  · rw [hs']; cases addFlag <;> exact hs1b.2.2.2

/-- A commit with `addFlag` set, after `a.txt` was deleted, with `b.txt` pending and on
disk and `never.txt` pending and not on disk: `b.txt` is the only tracked file left, nothing
is pending, and the current commit is the new hash 2. -/
theorem commit_updates_lists_witness :
    ∃ (s' : OperationAccumulator plainExtern) (w' : World plainExtern),
      commit committedOncePending deletedWorld "second" true = some (true, s', w') ∧
      s'.trackedFiles =
        committedOncePending.trackedFiles.filter
          (fun f => decide (f ∉ missingTracked committedOncePending deletedWorld.disk)) ++
          (if true then presentAdded committedOncePending deletedWorld.disk else []) ∧
      s'.trackedFiles = ["b.txt"] ∧ s'.addedFiles = [] ∧ s'.curCommit = some (2 : Nat) ∧
      s'.initialCommitPerformed = true ∧
      s'.tree = ["Master:", "commit 1", "commit 2"] := by
  refine ⟨_, _, rfl,
    (commit_updates_lists committedOncePending _ deletedWorld _ "second" true rfl).1,
    rfl, rfl, rfl, rfl, rfl⟩

/-! ### Adding a file -/

theorem alreadyTracked_iff {E : Extern} (s : OperationAccumulator E) (fileName : String) :
    alreadyTracked s fileName = true ↔ fileName ∈ s.trackedFiles ∨ fileName ∈ s.addedFiles := by
  unfold alreadyTracked
  by_cases h1 : fileName ∈ s.trackedFiles
  · have : s.trackedFiles.any (fun file => fileName == file) = true :=
      List.any_eq_true.2 ⟨fileName, h1, by simp⟩
    simp [this, h1]
  · have n1 : ¬ s.trackedFiles.any (fun file => fileName == file) = true := by
      intro h
      obtain ⟨x, hx, hxe⟩ := List.any_eq_true.1 h
      have : fileName = x := by simpa using hxe
      exact h1 (this ▸ hx)
    by_cases h2 : fileName ∈ s.addedFiles
    · have : s.addedFiles.any (fun file => fileName == file) = true :=
        List.any_eq_true.2 ⟨fileName, h2, by simp⟩
      simp [this, h2]
    · have n2 : ¬ s.addedFiles.any (fun file => fileName == file) = true := by
        intro h
        obtain ⟨x, hx, hxe⟩ := List.any_eq_true.1 h
        have : fileName = x := by simpa using hxe
        exact h2 (this ▸ hx)
      simp only [Bool.not_eq_true] at n1 n2
      simp [n1, n2, h1, h2]

/-- C8. `addFile(path)` returns true if and only if `path` occurs in neither `trackedFiles`
nor `addedFiles`; when it returns true the only change is that `path` is appended at the end
of `addedFiles`, and when it returns false the accumulator is unchanged. So a second
`addFile(path)` directly after the first returns false and leaves the accumulator as the
first call left it, and `addFile` never introduces a duplicate into
`trackedFiles ++ addedFiles`: a duplicate-free list stays duplicate-free. -/
theorem addFile_adds_once {E : Extern} (s : OperationAccumulator E) (path : String) :
    ((addFile s path).1 = true ↔ path ∉ s.trackedFiles ∧ path ∉ s.addedFiles) ∧
    ((addFile s path).1 = true →
      (addFile s path).2 = { s with addedFiles := s.addedFiles ++ [path] }) ∧
    ((addFile s path).1 = false → (addFile s path).2 = s) ∧
    addFile (addFile s path).2 path = (false, (addFile s path).2) ∧
    ((s.trackedFiles ++ s.addedFiles).Nodup →
      ((addFile s path).2.trackedFiles ++ (addFile s path).2.addedFiles).Nodup) := by
  have hiff := alreadyTracked_iff s path
  by_cases ht : alreadyTracked s path = true
  · have hin := hiff.1 ht
    have hadd : addFile s path = (false, s) := by simp [addFile, ht]
    rw [hadd]
    refine ⟨?_, ?_, ?_, ?_, ?_⟩
    · simp only [Bool.false_eq_true, false_iff, not_and_or, not_not]
      exact hin
    · intro h; cases h
    · intro _; rfl
    · exact hadd
    · exact id
  · have ht2 : alreadyTracked s path = false := by simpa using ht
    have hnin : ¬ (path ∈ s.trackedFiles ∨ path ∈ s.addedFiles) := fun h => ht (hiff.2 h)
    have hadd : addFile s path = (true, { s with addedFiles := s.addedFiles ++ [path] }) := by
      simp [addFile, ht2]
    rw [hadd]
    refine ⟨?_, ?_, ?_, ?_, ?_⟩
    · simp only [true_iff]
      exact not_or.1 hnin
    · intro _; rfl
    · intro h; cases h
    · have : alreadyTracked { s with addedFiles := s.addedFiles ++ [path] } path = true := by
        rw [alreadyTracked_iff]
        right
        simp
      simp [addFile, this]
    · intro hnd
      show (s.trackedFiles ++ (s.addedFiles ++ [path])).Nodup
      rw [← List.append_assoc]
      rw [List.nodup_append]
      refine ⟨hnd, by simp, ?_⟩
      intro a ha hb
      simp only [List.mem_singleton] at hb
      subst hb
      exact hnin (List.mem_append.1 ha)

/-! ### Switching the branch -/

/-- Whatever `switchBranch` is called with, it leaves the accumulator as it was: after the
two checks the function ends without an assignment. -/
theorem switchBranch_accumulator_unchanged {E : Extern} (s s' : OperationAccumulator E)
    (w w' : World E) (branchName : String)
    (h : switchBranch s w branchName = some (s', w')) : s' = s := by
  unfold switchBranch at h
  split at h
  · simp only [Option.some.injEq, Prod.mk.injEq] at h
    exact h.1.symm
  · split at h
    · cases h
    · simp only [Option.some.injEq, Prod.mk.injEq] at h
      exact h.1.symm
    · simp only [Option.some.injEq, Prod.mk.injEq] at h
      exact h.1.symm

/-- C9, at a failing input. With a clean working tree, the current branch `Master` and the
branch `feature` in the branch set, `switchBranch("feature")` passes both checks, prints
nothing and returns with `curBranch` still `Master`: the accumulator is unchanged as a
whole, the active-branch pointer included. -/
theorem switchBranch_does_not_switch :
    "feature" ∈ twoBranches.branches ∧
    cleanState twoBranches cleanDisk = some true ∧
    switchBranch twoBranches (plainWorld cleanDisk) "feature" =
      some (twoBranches, plainWorld cleanDisk) ∧
    twoBranches.curBranch = "Master" ∧
    (switchBranch twoBranches (plainWorld cleanDisk) "feature").map (fun r => r.1.curBranch) ≠
      some "feature" := by
  refine ⟨by decide, by decide, ?_, rfl, ?_⟩
  · rfl
  · have : switchBranch twoBranches (plainWorld cleanDisk) "feature" =
        some (twoBranches, plainWorld cleanDisk) := rfl
    rw [this]
    decide

/-! ### Restoring the state -/

/-- What `readBasicInfo` does, by the shape of the summary record. -/
theorem readBasicInfo_eq {E : Extern} (s : OperationAccumulator E) (w : World E) :
    readBasicInfo s w =
      if E.fileExists w.disk BASIC_INFO = false ∨
          summaryHeadOk (E.readFile w.disk BASIC_INFO) = false then some (false, s, w)
      else if (withSummaryHead s (E.readFile w.disk BASIC_INFO)).initialCommitPerformed
          = false then
        some (true, withSummaryHead s (E.readFile w.disk BASIC_INFO), w)
      else if summaryTailOk (E.readFile w.disk BASIC_INFO) = false then
        some (false, withSummaryHead s (E.readFile w.disk BASIC_INFO), w)
      else
        match E.hashOfString (substr ((E.readFile w.disk BASIC_INFO).getD 3 "") 10) with
        | none => none
        | some h =>
          match E.setSeed (substr ((E.readFile w.disk BASIC_INFO).getD 4 "") 9) w.counter with
          | none => none
          | some c =>
            some (true,
              { withSummaryHead s (E.readFile w.disk BASIC_INFO) with curCommit := some h },
              { w with counter := c }) := by
  unfold readBasicInfo
  by_cases hex : E.fileExists w.disk BASIC_INFO = true
  swap
  · have hex2 : E.fileExists w.disk BASIC_INFO = false := by simpa using hex
    simp [hex2]
  simp only [hex, Bool.not_true, Bool.false_eq_true, if_false, false_or, summaryHeadOk,
    summaryTailOk, withSummaryHead]
  generalize E.readFile w.disk BASIC_INFO = lines
  generalize lines.getD 0 "" = l0
  generalize lines.getD 1 "" = l1
  generalize lines.getD 2 "" = l2
  generalize lines.getD 3 "" = l3
  generalize lines.getD 4 "" = l4
  generalize findsAtStart l0 "projName=" = a0
  generalize ((substr l0 9).length == 0) = b0
  generalize findsAtStart l1 "curBranch=" = a1
  generalize ((substr l1 10).length == 0) = b1
  generalize findsAtStart l2 "initialCommit=" = a2
  generalize findsAtStart l3 "curCommit=" = a3
  generalize ((substr l3 10).length == 0) = b3
  generalize findsAtStart l4 "lastHash=" = a4
  generalize ((substr l4 9).length == 0) = b4
  generalize substr l2 14 = flag
  by_cases hlen : lines.length < 3
  · have h3 : ¬ 3 ≤ lines.length := by omega
    simp [hlen, h3]
  have h3 : 3 ≤ lines.length := by omega
  simp only [hlen, if_false, h3, decide_True, Bool.true_and]
  cases a0
  · simp
  cases b0
  swap
  · simp
  cases a1
  · simp
  cases b1
  swap
  · simp
  cases a2
  · simp
  simp only [Bool.not_true, Bool.or_self, Bool.false_eq_true, if_false, Bool.not_false,
    Bool.and_self, Bool.true_and]
  by_cases ht : flag = "true"
  · subst ht
    by_cases h5 : lines.length = 5 <;> cases a3 <;> cases b3 <;> cases a4 <;> cases b4 <;>
      simp [h5]
  · by_cases hf : flag = "false"
    · subst hf
      simp
    · simp [ht, hf]

theorem readTree_fields {E : Extern} (s : OperationAccumulator E) (d : E.Disk) :
    (readTree s d).2 = { s with tree := (readTree s d).2.tree } ∧
    ((readTree s d).1 = false ∨ E.fileExists d TREE_FILE = true) := by
  unfold readTree
  by_cases h : E.fileExists d TREE_FILE = true
  · simp [h]
  · have h2 : E.fileExists d TREE_FILE = false := by simpa using h
    simp [h2]

theorem readAddedAndTrackedFiles_eq {E : Extern} (s : OperationAccumulator E) (d : E.Disk) :
    (readAddedAndTrackedFiles s d = (false, s)) ∨
    (readAddedAndTrackedFiles s d =
      (true, { s with trackedFiles := s.trackedFiles ++ E.readFile d TRACKED_FILES,
                      addedFiles := s.addedFiles ++ E.readFile d ADDED_FILES })) := by
  unfold readAddedAndTrackedFiles
  split
  · exact Or.inl rfl
  · exact Or.inr rfl

theorem readInBranches_false {E : Extern} (s s' : OperationAccumulator E) (d : E.Disk)
    (h : readInBranches s d = (false, s')) : s' = s ∧ E.fileExists d BRANCH_LIST = false := by
  unfold readInBranches at h
  by_cases hex : E.fileExists d BRANCH_LIST = true
  · simp [hex] at h
  · have hex2 : E.fileExists d BRANCH_LIST = false := by simpa using hex
    simp only [hex2, Bool.not_false, if_true, Prod.mk.injEq, true_and] at h
    exact ⟨h.symm, hex2⟩

/-- C10, as amended. Restore fails fast but not all-or-nothing. Whenever `initialize()`
returns false: the branch set is unchanged and `projectInit` is true; when the summary
record is missing, has fewer than three lines or is malformed in its first three lines, no
other member has changed; when the first three lines of the summary are well-formed,
`projectName`, `curBranch` and `initialCommitPerformed` hold the values parsed from them
although the restore failed; when in addition `initialCommit=true` and the `curCommit=` /
`lastHash=` lines are missing or malformed, these three are the only members adopted
(`curCommit`, `trackedFiles`, `addedFiles` and the tree are unchanged); and `trackedFiles`
and `addedFiles` are unchanged unless the branch list is the missing record. -/
theorem restore_failure_keeps {E : Extern} (s s' : OperationAccumulator E) (w w' : World E)
    (h : initializeAccumulator s w = some (false, s', w')) :
    s'.branches = s.branches ∧ s'.projectInit = true ∧
    ((E.fileExists w.disk BASIC_INFO = false ∨ summaryHeadOk (summaryLines E w.disk) = false) →
      s' = { s with projectInit := true }) ∧
    ((E.fileExists w.disk BASIC_INFO = true ∧ summaryHeadOk (summaryLines E w.disk) = true) →
      s'.projectName = substr ((summaryLines E w.disk).getD 0 "") 9 ∧
      s'.curBranch = substr ((summaryLines E w.disk).getD 1 "") 10 ∧
      s'.initialCommitPerformed =
        decide (substr ((summaryLines E w.disk).getD 2 "") 14 = "true")) ∧
    ((E.fileExists w.disk BASIC_INFO = true ∧ summaryHeadOk (summaryLines E w.disk) = true ∧
        substr ((summaryLines E w.disk).getD 2 "") 14 = "true" ∧
        summaryTailOk (summaryLines E w.disk) = false) →
      s' = withSummaryHead { s with projectInit := true } (summaryLines E w.disk)) ∧
    (E.fileExists w.disk BRANCH_LIST = true →
      s'.trackedFiles = s.trackedFiles ∧ s'.addedFiles = s.addedFiles) := by
  unfold initializeAccumulator at h
  by_cases hmain : E.fileExists w.disk MAIN_DIR = true
  swap
  · have : E.fileExists w.disk MAIN_DIR = false := by simpa using hmain
    simp [this] at h
  simp only [hmain, Bool.not_true, Bool.false_eq_true, if_false] at h
  rw [readBasicInfo_eq] at h
  unfold summaryLines
  generalize hl : E.readFile w.disk BASIC_INFO = lines at h ⊢
  by_cases hbad : E.fileExists w.disk BASIC_INFO = false ∨ summaryHeadOk lines = false
  · -- the summary is rejected on its first three lines
    rw [if_pos hbad] at h
    simp only [Option.some.injEq, Prod.mk.injEq, true_and] at h
    obtain ⟨hs, -⟩ := h
    subst hs
    refine ⟨rfl, rfl, fun _ => rfl, ?_, ?_, fun _ => ⟨rfl, rfl⟩⟩
    · rintro ⟨h1, h2⟩
      rcases hbad with hb | hb
      · rw [h1] at hb; cases hb
      · rw [h2] at hb; cases hb
    · rintro ⟨h1, h2, -, -⟩
      rcases hbad with hb | hb
      · rw [h1] at hb; cases hb
      · rw [h2] at hb; cases hb
  · rw [if_neg hbad] at h
    have hgood : E.fileExists w.disk BASIC_INFO = true ∧ summaryHeadOk lines = true := by
      simp only [not_or, Bool.not_eq_false] at hbad
      exact hbad
    -- the common part of what follows: `s'` agrees with the adopted summary head outside
    -- `curCommit`, the tree and the two file lists
    have key : ∀ s1 : OperationAccumulator E,
        s1.branches = s.branches → s1.projectInit = true →
        s1.projectName = substr (lines.getD 0 "") 9 →
        s1.curBranch = substr (lines.getD 1 "") 10 →
        s1.initialCommitPerformed = decide (substr (lines.getD 2 "") 14 = "true") →
        s1.trackedFiles = s.trackedFiles → s1.addedFiles = s.addedFiles →
        ∀ w1 : World E,
        (match readTree s1 w1.disk with
          | (false, s2) => some (false, s2, w1.print tamperedError)
          | (true, s2) =>
            match readAddedAndTrackedFiles s2 w1.disk with
            | (false, s3) => some (false, s3, w1.print tamperedError)
            | (true, s3) =>
              match readInBranches s3 w1.disk with
              | (false, s4) => some (false, s4, w1.print tamperedError)
              | (true, s4) => some (true, s4, w1)) = some (false, s', w') →
        w1.disk = w.disk →
        s'.branches = s.branches ∧ s'.projectInit = true ∧
        (s'.projectName = substr (lines.getD 0 "") 9 ∧
          s'.curBranch = substr (lines.getD 1 "") 10 ∧
          s'.initialCommitPerformed = decide (substr (lines.getD 2 "") 14 = "true")) ∧
        (E.fileExists w.disk BRANCH_LIST = true →
          s'.trackedFiles = s.trackedFiles ∧ s'.addedFiles = s.addedFiles) := by
      intro s1 hb hp hn hc hi ht ha w1 hm hd
      obtain ⟨htree, -⟩ := readTree_fields s1 w1.disk
      generalize hrt : readTree s1 w1.disk = rt at hm htree
      obtain ⟨b2, s2⟩ := rt
      simp only at htree
      have e2 : s2.branches = s.branches ∧ s2.projectInit = true ∧
          s2.projectName = substr (lines.getD 0 "") 9 ∧
          s2.curBranch = substr (lines.getD 1 "") 10 ∧
          s2.initialCommitPerformed = decide (substr (lines.getD 2 "") 14 = "true") ∧
          s2.trackedFiles = s.trackedFiles ∧ s2.addedFiles = s.addedFiles := by
        rw [htree]
        exact ⟨hb, hp, hn, hc, hi, ht, ha⟩
      cases b2
      · simp only [Option.some.injEq, Prod.mk.injEq, true_and] at hm
        obtain ⟨hs, -⟩ := hm
        subst hs
        exact ⟨e2.1, e2.2.1, ⟨e2.2.2.1, e2.2.2.2.1, e2.2.2.2.2.1⟩,
          fun _ => ⟨e2.2.2.2.2.2.1, e2.2.2.2.2.2.2⟩⟩
      · simp only at hm
        rcases readAddedAndTrackedFiles_eq s2 w1.disk with hr | hr
        · rw [hr] at hm
          simp only [Option.some.injEq, Prod.mk.injEq, true_and] at hm
          obtain ⟨hs, -⟩ := hm
          subst hs
          exact ⟨e2.1, e2.2.1, ⟨e2.2.2.1, e2.2.2.2.1, e2.2.2.2.2.1⟩,
            fun _ => ⟨e2.2.2.2.2.2.1, e2.2.2.2.2.2.2⟩⟩
        · rw [hr] at hm
          simp only at hm
          generalize hrb : readInBranches
            { s2 with trackedFiles := s2.trackedFiles ++ E.readFile w1.disk TRACKED_FILES,
                      addedFiles := s2.addedFiles ++ E.readFile w1.disk ADDED_FILES }
            w1.disk = rb at hm
          obtain ⟨b4, s4⟩ := rb
          cases b4
          · simp only [Option.some.injEq, Prod.mk.injEq, true_and] at hm
            obtain ⟨hs, -⟩ := hm
            subst hs
            obtain ⟨hs4, hnb⟩ := readInBranches_false _ _ _ hrb
            rw [hs4]
            refine ⟨e2.1, e2.2.1, ⟨e2.2.2.1, e2.2.2.2.1, e2.2.2.2.2.1⟩, ?_⟩
            intro hbl
            rw [hd] at hnb
            rw [hbl] at hnb
            cases hnb
          · simp at hm
    by_cases hi : (withSummaryHead { s with projectInit := true } lines).initialCommitPerformed
        = false
    · rw [if_pos hi] at h
      simp only at h
      have hk := key (withSummaryHead { s with projectInit := true } lines) rfl rfl rfl rfl rfl
        rfl rfl w h rfl
      refine ⟨hk.1, hk.2.1, ?_, fun _ => hk.2.2.1, ?_, hk.2.2.2⟩
      · intro hb; exact absurd hb hbad
      · rintro ⟨-, -, htrue, -⟩
        have hd : decide (substr (lines.getD 2 "") 14 = "true") = false := hi
        rw [htrue] at hd
        exact absurd hd (by decide)
    · rw [if_neg hi] at h
      by_cases htail : summaryTailOk lines = false
      · rw [if_pos htail] at h
        simp only [Option.some.injEq, Prod.mk.injEq, true_and] at h
        obtain ⟨hs, -⟩ := h
        subst hs
        refine ⟨rfl, rfl, ?_, fun _ => ⟨rfl, rfl, rfl⟩, fun _ => rfl, fun _ => ⟨rfl, rfl⟩⟩
        intro hb; exact absurd hb hbad
      · rw [if_neg htail] at h
        cases hh : E.hashOfString (substr (lines.getD 3 "") 10) with
        | none =>
          rw [hh] at h
          exact Option.noConfusion h
        | some hash =>
          cases hseed : E.setSeed (substr (lines.getD 4 "") 9) w.counter with
          | none =>
            rw [hh, hseed] at h
            exact Option.noConfusion h
          | some c =>
            simp only [hh, hseed] at h
            have hk := key
              { withSummaryHead { s with projectInit := true } lines with
                curCommit := some hash } rfl rfl rfl rfl rfl rfl rfl { w with counter := c } h rfl
            refine ⟨hk.1, hk.2.1, ?_, fun _ => hk.2.2.1, ?_, hk.2.2.2⟩
            · intro hb; exact absurd hb hbad
            · rintro ⟨-, -, -, ht⟩
              exact absurd ht htail

/-- C10 fails as stated. On a fresh accumulator (empty `projectName` and `curBranch`, no
commit performed), `initialize()` returns false for a summary record whose first three
lines are well-formed with `initialCommit=true` and whose `curCommit=` / `lastHash=` lines
are missing, and for a well-formed summary followed by a missing tree record; in both runs
the accumulator has adopted the project name and the branch of the summary, and in the
first also `initialCommitPerformed`. -/
theorem restore_failure_adopts_summary :
    (OperationAccumulator.new plainExtern).projectName = "" ∧
    (OperationAccumulator.new plainExtern).curBranch = "" ∧
    (OperationAccumulator.new plainExtern).initialCommitPerformed = false ∧
    (initializeAccumulator (OperationAccumulator.new plainExtern)
        (plainWorld truncatedSummaryDisk)).map
      (fun r => (r.1, r.2.1.projectName, r.2.1.curBranch, r.2.1.initialCommitPerformed)) =
      some (false, "p", "dev", true) ∧
    (initializeAccumulator (OperationAccumulator.new plainExtern)
        (plainWorld missingTreeDisk)).map
      (fun r => (r.1, r.2.1.projectName, r.2.1.curBranch, r.2.1.initialCommitPerformed)) =
      some (false, "p", "dev", false) := by
  refine ⟨rfl, rfl, rfl, ?_, ?_⟩ <;> decide

/-- The truncated summary record: the restore fails, the three members of the summary's
first three lines are adopted, and nothing else changes. -/
theorem restore_failure_keeps_witness :
    ∃ (s' : OperationAccumulator plainExtern) (w' : World plainExtern),
      initializeAccumulator (OperationAccumulator.new plainExtern)
        (plainWorld truncatedSummaryDisk) = some (false, s', w') ∧
      s'.branches = [] ∧
      s' = withSummaryHead { OperationAccumulator.new plainExtern with projectInit := true }
        (summaryLines plainExtern truncatedSummaryDisk) ∧
      s'.projectName = "p" ∧ s'.trackedFiles = [] ∧ s'.curCommit = none := by
  refine ⟨_, _, rfl, ?_, ?_, rfl, rfl, rfl⟩
  · exact (restore_failure_keeps (OperationAccumulator.new plainExtern) _
      (plainWorld truncatedSummaryDisk) _ rfl).1
  · exact (restore_failure_keeps (OperationAccumulator.new plainExtern) _
      (plainWorld truncatedSummaryDisk) _ rfl).2.2.2.2.1
      ⟨by decide, by decide, by decide, by decide⟩

/-! ### Saving and restoring -/

theorem commit_false_inv {E : Extern} (s s' : OperationAccumulator E) (w w' : World E)
    (commitMessage : String) (addFlag : Bool)
    (h : commit s w commitMessage addFlag = some (false, s', w')) : s' = s ∧ w' = w := by
  unfold commit at h
  cases hcalc : calculateRemovalsAndDiffs s w.disk with
  | none => simp [hcalc] at h
  | some rd =>
    obtain ⟨removedFiles, diffs⟩ := rd
    simp only [hcalc] at h
    by_cases hc : ((if addFlag then getAddedFiles s w.disk else []).length == 0 &&
        removedFiles.length == 0 && diffs.length == 0) = true
    · rw [if_pos hc] at h
      simp only [Option.some.injEq, Prod.mk.injEq, true_and] at h
      exact ⟨h.1.symm, h.2.symm⟩
    · rw [if_neg hc] at h
      cases hw : writeOutCommit s w commitMessage
          (if addFlag then getAddedFiles s w.disk else []) removedFiles diffs with
      | none => simp [hw] at h
      | some r =>
        simp only [hw] at h
        split at h <;> simp at h

theorem createNewBranch_inv {E : Extern} (s s' : OperationAccumulator E) (w w' : World E)
    (name : String) (h : createNewBranch s w name = some (s', w')) :
    w'.counter = w.counter ∧
    (s' = s ∨ s' = { s with curBranch := name, tree := E.registerNewBranch s.tree name,
                            branches := setInsert name s.branches }) := by
  unfold createNewBranch at h
  split at h
  · cases h
  · simp only [Option.some.injEq, Prod.mk.injEq] at h
    exact ⟨by rw [← h.2]; rfl, Or.inl h.1.symm⟩
  · simp only [Option.some.injEq, Prod.mk.injEq] at h
    exact ⟨by rw [← h.2], Or.inr h.1.symm⟩

theorem addFile_cases {E : Extern} (s : OperationAccumulator E) (fileName : String) :
    addFile s fileName = (false, s) ∨
    addFile s fileName = (true, { s with addedFiles := s.addedFiles ++ [fileName] }) := by
  unfold addFile
  cases alreadyTracked s fileName
  · exact Or.inr rfl
  · exact Or.inl rfl

/-- Where the members of the accumulator after a successful commit come from. -/
theorem commit_true_frame {E : Extern} (s s' : OperationAccumulator E) (w w' : World E)
    (commitMessage : String) (addFlag : Bool)
    (h : commit s w commitMessage addFlag = some (true, s', w')) :
    (∀ f ∈ s'.trackedFiles, f ∈ s.trackedFiles ∨ f ∈ s.addedFiles) ∧
    (∀ f ∈ s'.addedFiles, f ∈ s.addedFiles) ∧
    s'.initialCommitPerformed = true ∧ (∃ cur, s'.curCommit = some cur) ∧
    w'.counter = (E.newHash w.counter).2 ∧
    s'.curBranch = s.curBranch ∧ s'.branches = s.branches ∧
    s'.projectName = s.projectName ∧ s'.projectInit = s.projectInit := by
  obtain ⟨removedFiles, diffs, s1, -, hw, hs', hs1⟩ := commit_true_inv s s' w w' _ _ h
  obtain ⟨-, -, -, hcount, -, -⟩ := writeOutCommit_inv s s1 w w' _ _ _ _ hw
  have hf := removeDeletedFilesFromLists_fields (E := E) removedFiles s
  have ht1 : ∀ f ∈ s1.trackedFiles, f ∈ s.trackedFiles := by
    intro f hfm
    rw [hs1] at hfm
    have hfm2 : f ∈ (removeDeletedFilesFromLists s removedFiles).trackedFiles := hfm
    rw [hf.2.2.2.2.2.2.2.1, ← List.diff_eq_foldl] at hfm2
    exact List.diff_subset _ _ hfm2
  have ha1 : ∀ f ∈ s1.addedFiles, f ∈ s.addedFiles := by
    intro f hfm
    rw [hs1] at hfm
    have hfm2 : f ∈ (removeDeletedFilesFromLists s removedFiles).addedFiles := hfm
    rw [hf.2.2.2.2.2.2.2.2, ← List.diff_eq_foldl] at hfm2
    exact List.diff_subset _ _ hfm2
  have hs1b : s1.curBranch = s.curBranch ∧ s1.branches = s.branches ∧
      s1.projectName = s.projectName ∧ s1.projectInit = s.projectInit := by
    rw [hs1]; exact ⟨hf.2.2.2.2.1, hf.2.2.2.2.2.1, hf.2.2.2.1, hf.1⟩
  have hs1c : s1.curCommit = some (E.newHash w.counter).1 := by rw [hs1]
  rw [hs']
  cases addFlag
  · exact ⟨fun f hfm => Or.inl (ht1 f hfm), ha1, rfl, ⟨_, hs1c⟩, hcount, hs1b.1, hs1b.2.1,
      hs1b.2.2.1, hs1b.2.2.2⟩
  · refine ⟨?_, ?_, rfl, ⟨_, hs1c⟩, hcount, hs1b.1, hs1b.2.1, hs1b.2.2.1, hs1b.2.2.2⟩
    · intro f hfm
      have hfm2 : f ∈ s1.trackedFiles ++ getAddedFiles s w.disk := hfm
      rcases List.mem_append.1 hfm2 with hx | hx
      · exact Or.inl (ht1 f hx)
      · exact Or.inr (List.mem_filter.1 hx).1
    · intro f hfm
      cases hfm

theorem linesText_append (xs ys : List String) :
    linesText (xs ++ ys) = linesText xs ++ linesText ys := by
  induction xs with
  | nil => simp [linesText]
  | cons x xs ih => simp [linesText, ih, String.append_assoc]

/-- Inserting an element that a set already holds leaves the set as it is. -/
theorem setInsert_of_mem (x : String) : ∀ l : List String, SetOrdered l → x ∈ l →
    setInsert x l = l
  | [], _, h => by cases h
  | y :: ys, hs, h => by
    unfold SetOrdered at hs
    rw [List.pairwise_cons] at hs
    unfold setInsert
    by_cases hxy : x = y
    · subst hxy
      simp [lt_irrefl]
    · have hmem : x ∈ ys := by
        rcases List.mem_cons.1 h with h | h
        · exact absurd h hxy
        · exact h
      have hlt : y.data < x.data := hs.1 x hmem
      have hnlt : ¬ x.data < y.data := lt_asymm hlt
      simp only [hnlt, hxy, if_false]
      rw [setInsert_of_mem x ys hs.2 hmem]

/-- C11 fails as stated. With a clean working tree, the current branch `Master` and the
branch `feature` already in the branch set, `createNewBranch("feature")` is not refused:
it prints nothing, and afterwards `curBranch` is `feature`. Only the branch set is as it
was. -/
theorem createNewBranch_existing_switches :
    "feature" ∈ twoBranches.branches ∧
    cleanState twoBranches cleanDisk = some true ∧
    twoBranches.curBranch = "Master" ∧
    (createNewBranch twoBranches (plainWorld cleanDisk) "feature").map
      (fun r => (r.1.curBranch, r.1.branches, r.2.cout)) =
      some ("feature", ["Master", "feature"], []) := by
  refine ⟨by decide, by decide, rfl, by decide⟩

/-- C11, as amended. Creating a branch whose name already exists leaves the branch set
unchanged but is not rejected by `createNewBranch`: for every state with a clean working
tree (where the dereferences of `curCommit` are safe) and every name already in the branch
set, the call prints no refusal, sets `curBranch` to `name` (so when `name` differs from the
current branch, `curBranch` is switched to `name`), hands `name` to the tree's
`registerNewBranch`, and leaves the branch set with the same members (the same list, for a
set in ascending order) and every other member as it was. -/
theorem createNewBranch_existing_name {E : Extern} (s : OperationAccumulator E)
    (w : World E) (name : String) (hk : CommitKnown s) (hclean : ¬ Dirty s w.disk)
    (hmem : name ∈ s.branches) :
    ∃ s', createNewBranch s w name = some (s', w) ∧
      s'.curBranch = name ∧
      s'.tree = E.registerNewBranch s.tree name ∧
      (∀ b, b ∈ s'.branches ↔ b ∈ s.branches) ∧
      (SetOrdered s.branches → s'.branches = s.branches) ∧
      s'.trackedFiles = s.trackedFiles ∧ s'.addedFiles = s.addedFiles ∧
      s'.curCommit = s.curCommit ∧
      s'.initialCommitPerformed = s.initialCommitPerformed ∧
      s'.projectName = s.projectName ∧ s'.projectInit = s.projectInit := by
  have hc := (cleanState_eq s w.disk hk).2 hclean
  refine ⟨{ s with curBranch := name, tree := E.registerNewBranch s.tree name,
                   branches := setInsert name s.branches }, ?_, rfl, rfl, ?_, ?_,
    rfl, rfl, rfl, rfl, rfl, rfl⟩
  · simp [createNewBranch, hc]
  · intro b
    show b ∈ setInsert name s.branches ↔ b ∈ s.branches
    rw [mem_setInsert]
    constructor
    · rintro (rfl | h)
      · exact hmem
      · exact h
    · exact Or.inr
  · intro hs
    exact setInsert_of_mem name s.branches hs hmem

theorem twoBranches_not_dirty : ¬ Dirty twoBranches cleanDisk := by
  intro hd
  have h1 := (cleanState_eq twoBranches cleanDisk (Or.inr ⟨(1 : Nat), rfl⟩)).1 hd
  have h2 : cleanState twoBranches cleanDisk = some true := by decide
  rw [h2] at h1
  cases h1

/-- On the branch `Master` with the branch `feature` in the set and a clean working tree,
`createNewBranch("feature")` switches to `feature` and keeps the branch set. -/
theorem createNewBranch_existing_name_witness :
    ∃ s', createNewBranch twoBranches (plainWorld cleanDisk) "feature" =
        some (s', plainWorld cleanDisk) ∧
      s'.curBranch = "feature" ∧
      s'.tree = plainExtern.registerNewBranch twoBranches.tree "feature" ∧
      (∀ b, b ∈ s'.branches ↔ b ∈ twoBranches.branches) ∧
      (SetOrdered twoBranches.branches → s'.branches = twoBranches.branches) ∧
      s'.trackedFiles = twoBranches.trackedFiles ∧ s'.addedFiles = twoBranches.addedFiles ∧
      s'.curCommit = twoBranches.curCommit ∧
      s'.initialCommitPerformed = twoBranches.initialCommitPerformed ∧
      s'.projectName = twoBranches.projectName ∧ s'.projectInit = twoBranches.projectInit :=
  createNewBranch_existing_name twoBranches (plainWorld cleanDisk) "feature"
    (Or.inr ⟨(1 : Nat), rfl⟩) twoBranches_not_dirty (by decide)

/-! ### The dereferences of `curCommit` -/

/-- The loop of `calculateRemovalsAndDiffs` is aborted only at a tracked file that exists
on disk, with `curCommit` null. -/
theorem calculateRemovalsAndDiffsLoop_none {E : Extern} (s : OperationAccumulator E)
    (d : E.Disk) :
    ∀ (files : List String) (out : List String × List (String × FileDiff)),
      calculateRemovalsAndDiffsLoop s d files out = none →
      s.curCommit = none ∧ ∃ f ∈ files, E.fileExists d f = true
  | [], out, h => by simp [calculateRemovalsAndDiffsLoop] at h
  | f :: rest, (r, ds), h => by
    unfold calculateRemovalsAndDiffsLoop at h
    by_cases hex : E.fileExists d f = true
    · cases hc : s.curCommit with
      | none => exact ⟨rfl, f, by simp, hex⟩
      | some cur =>
        simp only [hex, if_true, hc] at h
        split at h
        · obtain ⟨h1, g, hg, hge⟩ := calculateRemovalsAndDiffsLoop_none s d rest _ h
          rw [hc] at h1
          cases h1
        · obtain ⟨h1, g, hg, hge⟩ := calculateRemovalsAndDiffsLoop_none s d rest _ h
          rw [hc] at h1
          cases h1
    · have hex2 : E.fileExists d f = false := by simpa using hex
      simp only [hex2, Bool.false_eq_true, if_false] at h
      obtain ⟨h1, g, hg, hge⟩ := calculateRemovalsAndDiffsLoop_none s d rest _ h
      exact ⟨h1, g, List.mem_cons_of_mem _ hg, hge⟩

/-- The loop of `filesHaveBeenRemovedOrModified` is aborted only at a tracked file that
exists on disk, with `curCommit` null. -/
theorem filesHaveBeenRemovedOrModifiedLoop_none {E : Extern} (s : OperationAccumulator E)
    (d : E.Disk) :
    ∀ files : List String, filesHaveBeenRemovedOrModifiedLoop s d files = none →
      s.curCommit = none ∧ ∃ f ∈ files, E.fileExists d f = true
  | [], h => by simp [filesHaveBeenRemovedOrModifiedLoop] at h
  | f :: rest, h => by
    unfold filesHaveBeenRemovedOrModifiedLoop at h
    by_cases hex : E.fileExists d f = true
    · cases hc : s.curCommit with
      | none => exact ⟨rfl, f, by simp, hex⟩
      | some cur =>
        simp only [hex, if_true, hc] at h
        split at h
        · cases h
        · obtain ⟨h1, -⟩ := filesHaveBeenRemovedOrModifiedLoop_none s d rest h
          rw [hc] at h1
          cases h1
    · have hex2 : E.fileExists d f = false := by simpa using hex
      simp [hex2] at h

/-- The invariant of the reachable accumulators: no file is tracked, or a commit has been
performed and there is a current commit. -/
theorem commit_known_of_reachable {E : Extern} (s : OperationAccumulator E)
    (h : ReachableByCalls E s) :
    s.trackedFiles = [] ∨ (s.initialCommitPerformed = true ∧ ∃ cur, s.curCommit = some cur) := by
  induction h with
  | start projectName => exact Or.inl rfl
  | addFile s fileName hs ih =>
    rcases addFile_cases s fileName with hr | hr
    · rw [hr]; exact ih
    · rw [hr]; exact ih
  | commit s s' w w' commitMessage addFlag result hs hcall ih =>
    cases result with
    | false =>
      obtain ⟨h1, -⟩ := commit_false_inv s s' w w' _ _ hcall
      rw [h1]; exact ih
    | true =>
      obtain ⟨-, -, hi, hc, -⟩ := commit_true_frame s s' w w' _ _ hcall
      exact Or.inr ⟨hi, hc⟩
  | createNewBranch s s' w w' newBranchName hs hcall ih =>
    obtain ⟨-, hs' | hs'⟩ := createNewBranch_inv s s' w w' _ hcall
    · rw [hs']; exact ih
    · rw [hs']; exact ih
  | switchBranch s s' w w' branchName hs hcall ih =>
    rw [switchBranch_accumulator_unchanged s s' w w' _ hcall]
    exact ih
  | getStatus s w w' hs hcall ih => exact ih

/-- C12. In every state reachable from `initializeProject` (on a fresh accumulator) by any
sequence of `addFile`, `commit`, `createNewBranch`, `switchBranch` and `getStatus` calls,
over any file-system content, a non-empty `trackedFiles` implies that a commit has been
performed and `curCommit` is non-null. The dereferences `curCommit->toString()` in
`calculateRemovalsAndDiffs` and `filesHaveBeenRemovedOrModified` are made only for a
tracked file that exists on disk (in any accumulator, these functions are aborted only with
`curCommit` null and such a file), so in a reachable state they are never reached with a
null `curCommit`: on every disk both functions return, and so do `createNewBranch`,
`switchBranch` and `getStatus`, before the first commit as well. -/
theorem tracked_implies_current_commit {E : Extern} (s : OperationAccumulator E)
    (h : ReachableByCalls E s) :
    (s.trackedFiles ≠ [] →
      s.initialCommitPerformed = true ∧ ∃ cur, s.curCommit = some cur) ∧
    (∀ d, ∃ out, calculateRemovalsAndDiffs s d = some out) ∧
    (∀ d, ∃ b, filesHaveBeenRemovedOrModified s d = some b) ∧
    (∀ w name, ∃ r, createNewBranch s w name = some r) ∧
    (∀ w name, ∃ r, switchBranch s w name = some r) ∧
    (∀ w, ∃ w', getStatus s w = some w') ∧
    (∀ (s0 : OperationAccumulator E) (d : E.Disk), calculateRemovalsAndDiffs s0 d = none →
      s0.curCommit = none ∧ ∃ f ∈ s0.trackedFiles, E.fileExists d f = true) ∧
    (∀ (s0 : OperationAccumulator E) (d : E.Disk),
      filesHaveBeenRemovedOrModified s0 d = none →
      s0.curCommit = none ∧ ∃ f ∈ s0.trackedFiles, E.fileExists d f = true) := by
  have inv := commit_known_of_reachable s h
  have hsafe : ∀ d : E.Disk,
      ¬ (s.curCommit = none ∧ ∃ f ∈ s.trackedFiles, E.fileExists d f = true) := by
    rintro d ⟨hnone, f, hf, -⟩
    rcases inv with ht | ⟨-, cur, hcur⟩
    · rw [ht] at hf
      cases hf
    · rw [hcur] at hnone
      cases hnone
  have hcalc : ∀ d, ∃ out, calculateRemovalsAndDiffs s d = some out := by
    intro d
    cases hc : calculateRemovalsAndDiffs s d with
    | none => exact absurd (calculateRemovalsAndDiffsLoop_none s d _ _ hc) (hsafe d)
    | some out => exact ⟨out, rfl⟩
  have hmod : ∀ d, ∃ b, filesHaveBeenRemovedOrModified s d = some b := by
    intro d
    cases hc : filesHaveBeenRemovedOrModified s d with
    | none => exact absurd (filesHaveBeenRemovedOrModifiedLoop_none s d _ hc) (hsafe d)
    | some b => exact ⟨b, rfl⟩
  have hclean : ∀ d, ∃ b, cleanState s d = some b := by
    intro d
    obtain ⟨b, hb⟩ := hmod d
    unfold cleanState
    by_cases ha : filesHaveBeenAdded s d = true
    · exact ⟨false, by simp [ha]⟩
    · cases b
      · exact ⟨true, by simp [ha, hb]⟩
      · exact ⟨false, by simp [ha, hb]⟩
  refine ⟨?_, hcalc, hmod, ?_, ?_, ?_, ?_, ?_⟩
  · intro hne
    rcases inv with ht | hi
    · exact absurd ht hne
    · exact hi
  · intro w name
    obtain ⟨b, hb⟩ := hclean w.disk
    unfold createNewBranch
    rw [hb]
    cases b <;> exact ⟨_, rfl⟩
  · intro w name
    obtain ⟨b, hb⟩ := hclean w.disk
    unfold switchBranch
    split
    · exact ⟨_, rfl⟩
    · rw [hb]
      cases b <;> exact ⟨_, rfl⟩
  · intro w
    obtain ⟨out, hout⟩ := hcalc w.disk
    unfold getStatus
    rw [hout]
    exact ⟨_, rfl⟩
  · intro s0 d h0
    exact calculateRemovalsAndDiffsLoop_none s0 d _ _ h0
  · intro s0 d h0
    exact filesHaveBeenRemovedOrModifiedLoop_none s0 d _ h0

/-- After `initializeProject("proj")`, `addFile("a.txt")` and a first commit, `a.txt` is
tracked and the current commit is the hash 1; on every disk the two functions return. -/
theorem tracked_implies_current_commit_witness :
    ∃ s : OperationAccumulator plainExtern,
      ReachableByCalls plainExtern s ∧ s.trackedFiles = ["a.txt"] ∧
      s.curCommit = some (1 : Nat) ∧
      (s.trackedFiles ≠ [] →
        s.initialCommitPerformed = true ∧ ∃ cur, s.curCommit = some cur) ∧
      (∀ d, ∃ out, calculateRemovalsAndDiffs s d = some out) ∧
      (∀ d, ∃ b, filesHaveBeenRemovedOrModified s d = some b) := by
  have r1 : ReachableByCalls plainExtern trackingStarted :=
    ReachableByCalls.addFile _ "a.txt" (ReachableByCalls.start "proj")
  have hcall : ∃ s' w', commit trackingStarted (plainWorld startDisk) "first" true =
      some (true, s', w') ∧ s'.trackedFiles = ["a.txt"] ∧ s'.curCommit = some (1 : Nat) :=
    ⟨_, _, rfl, rfl, rfl⟩
  obtain ⟨s', w', hc, ht, hcur⟩ := hcall
  have r2 : ReachableByCalls plainExtern s' :=
    ReachableByCalls.commit trackingStarted s' (plainWorld startDisk) w' "first" true true
      r1 hc
  exact ⟨s', r2, ht, hcur, (tracked_implies_current_commit s' r2).1,
    (tracked_implies_current_commit s' r2).2.1, (tracked_implies_current_commit s' r2).2.2.1⟩

end Vcs
